import Mathlib

/-!
The eepromrw firmware: the 24AA512 chunk protocol (`src/eepromrw_arduino/24AA512.cpp`)

A shallow embedding of the firmware's chunked transfer protocol.

* The serial link is a stream: `serialIn` holds the bytes the host has sent and
  that the firmware has not consumed yet. `Serial.readBytes(buf, n)` takes the
  first `min n (available)` of them; a short read leaves the tail of the
  destination buffer as it was.
* Local variables of the C functions are not initialised by the code. Their
  prior content is a parameter (`Locals`, `cmdBuf`), so that a short read shows
  what the code really uses.
* The I2C device is a parameter (`Device`): what `endTransmission` answers to a
  transmitted byte sequence and what `requestFrom` makes available.
* Everything the firmware does is appended to the trace `out`, in program order.
* `CHUNK_SIZE` comes from `Config.h`, which is not part of the sources; it is a
  parameter of the handlers.
* `uint16_t` arithmetic is `% 65536`, bytes are `% 256`.
-/

namespace Eepromrw

/-- Everything observable the firmware does, in program order. -/
inductive Event where
  /-- The call `ack()`. -/
  | ack
  /-- The call `nck()`. -/
  | nck
  /-- The call `Serial.readBytes(_, length)`, which consumed the bytes `got`. -/
  | serialRead (length : Nat) (got : List Nat)
  /-- The call `Serial.write(buf, n)` sending `bytes` to the host. -/
  | serialWrite (bytes : List Nat)
  /-- The call `delay(ms)`. -/
  | delay (ms : Nat)
  /-- The call `Wire.begin()`. -/
  | wireBegin
  /-- The call `Wire.beginTransmission(address)`. -/
  | beginTransmission (address : Nat)
  /-- The call `Wire.write(..)` queueing `bytes`. -/
  | wireWrite (bytes : List Nat)
  /-- The call `Wire.endTransmission()`: `data` went to `address`, the bus answered `status`. -/
  | endTransmission (address : Nat) (data : List Nat) (status : Int)
  /-- The call `Wire.requestFrom(address, quantity)`. -/
  | requestFrom (address : Nat) (quantity : Nat)
  deriving DecidableEq, Repr

/-- The device on the I2C bus, as the firmware sees it through `Wire`. -/
structure Device (β : Type) where
  /-- The answer to `endTransmission`: status and the device afterwards. -/
  transmit : β → Nat → List Nat → Int × β
  /-- The answer to `requestFrom`: the bytes made available and the device afterwards. -/
  request : β → Nat → Nat → List Nat × β

/-- Firmware state: the global `addressOffset`, the serial input not yet consumed,
the trace, the `Wire` buffers and the bus device. -/
structure State (β : Type) where
  /-- The global `static uint16_t addressOffset`. -/
  addressOffset : Nat
  /-- Bytes sent by the host and not yet consumed. -/
  serialIn : List Nat
  /-- The trace of everything done so far. -/
  out : List Event
  /-- Target of the transmission being assembled. -/
  txAddress : Nat
  /-- Bytes queued by `Wire.write`. -/
  txBuffer : List Nat
  /-- Bytes made available by the last `Wire.requestFrom`. -/
  rxBuffer : List Nat
  /-- The device on the bus. -/
  dev : β

/-- Prior (uninitialised) content of the locals of `write_chunk` and `read_chunk`. -/
structure Locals where
  /-- The 2 bytes of `uint16_t chunkSize`. -/
  chunkSize : List Nat
  /-- The `CHUNK_SIZE` bytes of `uint8_t chunk[CHUNK_SIZE]`. -/
  chunk : List Nat
  /-- The 4 bytes of `uint32_t remoteChecksum`. -/
  remoteChecksum : List Nat
  /-- The first 3 bytes of `char buf[4]`. -/
  buf : List Nat

/-- A `uint16_t` read from its 2 bytes in memory (little-endian). -/
def le16 (b : List Nat) : Nat :=
  b.getD 0 0 % 256 + 256 * (b.getD 1 0 % 256)

/-- A `uint32_t` read from its 4 bytes in memory (little-endian). -/
def le32 (b : List Nat) : Nat :=
  b.getD 0 0 % 256 + 256 * (b.getD 1 0 % 256) + 65536 * (b.getD 2 0 % 256)
    + 16777216 * (b.getD 3 0 % 256)

/-- The 4 bytes of a `uint32_t` in memory (little-endian). -/
def bytes32 (v : Nat) : List Nat :=
  [v % 256, v / 256 % 256, v / 65536 % 256, v / 16777216 % 256]

/-- The loop of `simpleChecksum` with an accumulator that wraps modulo `M`. -/
def simpleChecksumW (M : Nat) (data : List Nat) (length : Nat) : Nat :=
  ((List.range length).foldl (fun sum i => (sum + data.getD i 0) % M) 0) % 256

/-- The function `simpleChecksum(data, length)`, `unsigned int` being 16 bits wide. -/
def simpleChecksum (data : List Nat) (length : Nat) : Nat :=
  simpleChecksumW 65536 data length

/-- The C function `strcmp` on byte arrays; the end of the array counts as the terminator. -/
def strcmp : List Nat → List Nat → Int
  | a :: as, b :: bs =>
    if a ≠ b then (a : Int) - (b : Int) else if a = 0 then 0 else strcmp as bs
  | [], b :: _ => - (b : Int)
  | a :: _, [] => (a : Int)
  | [], [] => 0

/-- The string literal "rst". -/
def RST : List Nat := [114, 115, 116, 0]

/-- The string literal "chk". -/
def CHK : List Nat := [99, 104, 107, 0]

/-- The string literal "ack". -/
def ACK : List Nat := [97, 99, 107, 0]

variable {β : Type}

/-- The call `ack()`. -/
def ack (s : State β) : State β :=
  { s with out := s.out ++ [Event.ack] }

/-- The call `nck()`. -/
def nck (s : State β) : State β :=
  { s with out := s.out ++ [Event.nck] }

/-- The call `delay(ms)`. -/
def delay (ms : Nat) (s : State β) : State β :=
  { s with out := s.out ++ [Event.delay ms] }

/-- The call `Serial.readBytes(buffer, length)`: the buffer afterwards, the number of bytes
read, and the state. -/
def readBytes (buffer : List Nat) (length : Nat) (s : State β) : (List Nat × Nat) × State β :=
  ((s.serialIn.take length ++ buffer.drop (s.serialIn.take length).length,
    (s.serialIn.take length).length),
   { s with serialIn := s.serialIn.drop length,
            out := s.out ++ [Event.serialRead length (s.serialIn.take length)] })

/-- The call `Serial.write(bytes, n)`. -/
def serialWrite (bytes : List Nat) (s : State β) : State β :=
  { s with out := s.out ++ [Event.serialWrite bytes] }

/-- The call `Wire.begin()`. -/
def wireBegin (s : State β) : State β :=
  { s with out := s.out ++ [Event.wireBegin] }

/-- The call `Wire.beginTransmission(address)`. -/
def beginTransmission (address : Nat) (s : State β) : State β :=
  { s with txAddress := address, txBuffer := [],
           out := s.out ++ [Event.beginTransmission address] }

/-- The calls `Wire.write(b)` and `Wire.write(data, n)`. -/
def wireWrite (bytes : List Nat) (s : State β) : State β :=
  { s with txBuffer := s.txBuffer ++ bytes, out := s.out ++ [Event.wireWrite bytes] }

/-- The call `Wire.endTransmission()`. -/
def endTransmission (D : Device β) (s : State β) : Int × State β :=
  ((D.transmit s.dev s.txAddress s.txBuffer).1,
   { s with dev := (D.transmit s.dev s.txAddress s.txBuffer).2, txBuffer := [],
            out := s.out ++ [Event.endTransmission s.txAddress s.txBuffer
                      (D.transmit s.dev s.txAddress s.txBuffer).1] })

/-- The call `Wire.requestFrom(address, quantity)`. -/
def requestFrom (D : Device β) (address quantity : Nat) (s : State β) : Nat × State β :=
  ((D.request s.dev address quantity).1.length,
   { s with dev := (D.request s.dev address quantity).2,
            rxBuffer := (D.request s.dev address quantity).1,
            out := s.out ++ [Event.requestFrom address quantity] })

/-- The loop `while (Wire.available() > 0 && i < chunkSize) { chunk[i] = Wire.read(); i++; }`
of `read_chunk`: from the receive buffer, `i` and `chunk` to the chunk, `i` and the receive
buffer afterwards. -/
def wireReadLoop (chunkSize : Nat) : List Nat → Nat → List Nat → List Nat × Nat × List Nat
  | [], i, chunk => (chunk, i, [])
  | b :: rx, i, chunk =>
    if i < chunkSize then wireReadLoop chunkSize rx (i + 1) (chunk.set i b)
    else (chunk, i, b :: rx)

/-- The function `write_chunk()`. -/
def write_chunk (CHUNK_SIZE : Nat) (D : Device β) (junk : Locals) (s : State β) : State β :=
  let r1 := readBytes junk.chunkSize 2 s
  let chunkSize := le16 r1.1.1
  if chunkSize > CHUNK_SIZE then nck r1.2
  else
    let r2 := readBytes junk.chunk chunkSize (ack r1.2)
    let chunk := r2.1.1
    if r2.1.2 ≠ chunkSize then nck r2.2
    else
      let checksum := simpleChecksum chunk chunkSize
      let r3 := readBytes junk.remoteChecksum 4 (ack r2.2)
      let remoteChecksum := le32 r3.1.1
      if remoteChecksum ≠ checksum then nck r3.2
      else
        let s4 := delay 5 (ack r3.2)
        let s5 := beginTransmission 0x50 s4
        let s6 := wireWrite [s5.addressOffset / 256 % 256] s5
        let s7 := wireWrite [s6.addressOffset % 256] s6
        let s8 := wireWrite (chunk.take chunkSize) s7
        let r9 := endTransmission D s8
        if r9.1 ≠ 0 then nck r9.2
        else
          ack { r9.2 with addressOffset := (r9.2.addressOffset + chunkSize) % 65536 }

/-- The function `read_chunk()`. -/
def read_chunk (CHUNK_SIZE : Nat) (D : Device β) (junk : Locals) (s : State β) : State β :=
  let r1 := readBytes junk.chunkSize 2 s
  let chunkSize := le16 r1.1.1
  if chunkSize > CHUNK_SIZE then nck r1.2
  else
    let s2 := beginTransmission 0x50 (ack r1.2)
    let s3 := wireWrite [s2.addressOffset / 256 % 256] s2
    let s4 := wireWrite [s3.addressOffset % 256] s3
    let r5 := endTransmission D s4
    if r5.1 ≠ 0 then nck r5.2
    else
      let r6 := requestFrom D 0x50 chunkSize (delay 5 r5.2)
      let l := wireReadLoop chunkSize r6.2.rxBuffer 0 junk.chunk
      let chunk := l.1
      let s7 := { r6.2 with rxBuffer := l.2.2 }
      let checksum := simpleChecksum chunk chunkSize
      let s8 := serialWrite (bytes32 checksum) s7
      let s9 := serialWrite (chunk.take chunkSize) s8
      let r10 := readBytes junk.buf 3 s9
      if strcmp (r10.1.1.take 3 ++ [0]) ACK ≠ 0 then r10.2
      else { r10.2 with addressOffset := (r10.2.addressOffset + chunkSize) % 65536 }

/-- What one pass through the body of a dispatcher loop does. -/
inductive Step (β : Type) where
  /-- No serial input is available: the loop spins on `continue`. -/
  | idle (s : State β)
  /-- The token was "rst": `break`. -/
  | done (s : State β)
  /-- The loop goes on to its next iteration. -/
  | next (s : State β)

/-- The body of the loop of `chip_24AA512_write`. -/
def write_body (CHUNK_SIZE : Nat) (D : Device β) (cmdBuf : List Nat) (junk : Locals)
    (s : State β) : Step β :=
  if s.serialIn.length ≤ 0 then Step.idle s
  else
    let r := readBytes cmdBuf 3 s
    if strcmp (r.1.1.take 3 ++ [0]) RST = 0 then Step.done r.2
    else if strcmp (r.1.1.take 3 ++ [0]) CHK = 0 then
      Step.next (write_chunk CHUNK_SIZE D junk (ack r.2))
    else Step.next (nck r.2)

/-- The body of the loop of `chip_24AA512_read`. -/
def read_body (CHUNK_SIZE : Nat) (D : Device β) (cmdBuf : List Nat) (junk : Locals)
    (s : State β) : Step β :=
  if s.serialIn.length ≤ 0 then Step.idle s
  else
    let r := readBytes cmdBuf 3 s
    if strcmp (r.1.1.take 3 ++ [0]) RST = 0 then Step.done r.2
    else if strcmp (r.1.1.take 3 ++ [0]) CHK = 0 then
      Step.next (read_chunk CHUNK_SIZE D junk (ack r.2))
    else Step.next (nck r.2)

/-- How a run of a session loop stands after some number of iterations. -/
inductive Outcome (β : Type) where
  /-- The session ended on "rst". -/
  | ended (s : State β)
  /-- The input is used up: the loop waits for the host. -/
  | waiting (s : State β)
  /-- The iteration budget is used up with input left. -/
  | running (s : State β)

/-- The loop `while (true) { ... }` of `chip_24AA512_write`, for at most `fuel` iterations
that read a token. `cmdBuf k` and `junk k` are the prior content of the locals in the
iteration that has `k` more to go. -/
def write_loop (CHUNK_SIZE : Nat) (D : Device β) (cmdBuf : Nat → List Nat) (junk : Nat → Locals) :
    Nat → State β → Outcome β
  | 0, s => Outcome.running s
  | fuel + 1, s =>
    match write_body CHUNK_SIZE D (cmdBuf fuel) (junk fuel) s with
    | Step.idle s' => Outcome.waiting s'
    | Step.done s' => Outcome.ended s'
    | Step.next s' => write_loop CHUNK_SIZE D cmdBuf junk fuel s'

/-- The loop `while (true) { ... }` of `chip_24AA512_read`, as `write_loop`. -/
def read_loop (CHUNK_SIZE : Nat) (D : Device β) (cmdBuf : Nat → List Nat) (junk : Nat → Locals) :
    Nat → State β → Outcome β
  | 0, s => Outcome.running s
  | fuel + 1, s =>
    match read_body CHUNK_SIZE D (cmdBuf fuel) (junk fuel) s with
    | Step.idle s' => Outcome.waiting s'
    | Step.done s' => Outcome.ended s'
    | Step.next s' => read_loop CHUNK_SIZE D cmdBuf junk fuel s'

/-- The function `chip_24AA512_write()`. -/
def chip_24AA512_write (CHUNK_SIZE : Nat) (D : Device β) (cmdBuf : Nat → List Nat)
    (junk : Nat → Locals) (fuel : Nat) (s : State β) : Outcome β :=
  write_loop CHUNK_SIZE D cmdBuf junk fuel (wireBegin { s with addressOffset := 0 })

/-- The function `chip_24AA512_read()`. -/
def chip_24AA512_read (CHUNK_SIZE : Nat) (D : Device β) (cmdBuf : Nat → List Nat)
    (junk : Nat → Locals) (fuel : Nat) (s : State β) : Outcome β :=
  read_loop CHUNK_SIZE D cmdBuf junk fuel (wireBegin { s with addressOffset := 0 })

/-- The events a call added to the trace: the trace after it, without the trace before it. -/
def emitted (before after : State β) : List Event :=
  after.out.drop before.out.length


/-- Whether an event is a `Wire.beginTransmission`. -/
def Event.isBegin : Event → Bool
  | Event.beginTransmission _ => true
  | _ => false

/-- Whether an event is a `Wire.endTransmission`. -/
def Event.isEnd : Event → Bool
  | Event.endTransmission _ _ _ => true
  | _ => false


/-- The ideal EEPROM: its memory and its internal address pointer. -/
structure Eeprom where
  /-- The byte stored at each address. -/
  mem : Nat → Nat
  /-- The internal address pointer. -/
  ptr : Nat

/-- The ideal EEPROM as a bus device: a write of `[hi, lo] ++ data` stores `data` from address
`hi * 256 + lo` on and answers status 0; a request for `quantity` bytes makes available the
bytes stored from the address pointer on. -/
def idealEeprom : Device Eeprom where
  transmit e _ bytes :=
    match bytes with
    | hi :: lo :: data =>
      (0, { mem := fun a => if hi * 256 + lo ≤ a ∧ a < hi * 256 + lo + data.length
                            then data.getD (a - (hi * 256 + lo)) 0 else e.mem a,
            ptr := hi * 256 + lo })
    | _ => (4, e)
  request e _ quantity := ((List.range quantity).map (fun i => e.mem (e.ptr + i)), e)

/-- A bus device without memory: every transmission is answered with `status`, every request
makes the bytes `avail` available. -/
def cannedBus (status : Int) (avail : List Nat) : Device Unit where
  transmit _ _ _ := (status, ())
  request _ _ _ := (avail, ())

/-- A state with the given device, address offset and pending serial input, an empty trace and
empty `Wire` buffers. -/
def start (dev : β) (offset : Nat) (input : List Nat) : State β :=
  { addressOffset := offset, serialIn := input, out := [], txAddress := 0, txBuffer := [],
    rxBuffer := [], dev := dev }

/-- Locals of a handler with 8 bytes of chunk buffer, each byte holding 7. -/
def stale : Locals :=
  { chunkSize := [9, 9], chunk := [7, 7, 7, 7, 7, 7, 7, 7], remoteChecksum := [1, 1, 1, 1],
    buf := [5, 5, 5] }

/-- An EEPROM with every byte erased (0xFF). -/
def blank : Eeprom := { mem := fun _ => 255, ptr := 0 }

/-- The loop of `simpleChecksum` with an accumulator that never wraps. -/
def simpleChecksumExact (data : List Nat) (length : Nat) : Nat :=
  ((List.range length).foldl (fun sum i => sum + data.getD i 0) 0) % 256

/-- Whether an event is a flow-control signal: `ack()` or `nck()`. -/
def Event.isSignal : Event → Bool
  | Event.ack => true
  | Event.nck => true
  | _ => false

/-- The flow-control signals of a trace, in order. -/
def signals (es : List Event) : List Event :=
  es.filter Event.isSignal

/-- The state a loop-body result carries. -/
def Step.state : Step β → State β
  | Step.idle s => s
  | Step.done s => s
  | Step.next s => s

/-- The state an outcome carries. -/
def Outcome.state : Outcome β → State β
  | Outcome.ended s => s
  | Outcome.waiting s => s
  | Outcome.running s => s

/-- The length of the chunk a bus event completed in a write session: an `endTransmission`
answered with status 0 carried the 2 address bytes and the chunk; any other event completed
nothing. -/
def Event.written : Event → Nat
  | Event.endTransmission _ data status => if status = 0 then data.length - 2 else 0
  | _ => 0

/-- The sum of the lengths of the chunks that a trace of a write session completed. -/
def writtenBytes (es : List Event) : Nat :=
  (es.map Event.written).sum

/-- The length of the chunk completed at an event of a read session, given the events after
it: a `requestFrom` for `quantity` bytes (issued only after the address-set succeeded)
followed by the two `Serial.write` calls and a read that obtained "ack" from the host. -/
def confirmedAt (e : Event) (es : List Event) : Nat :=
  match e, es with
  | Event.requestFrom _ quantity,
      Event.serialWrite _ :: Event.serialWrite _ :: Event.serialRead _ got :: _ =>
    if got = [97, 99, 107] then quantity else 0
  | _, _ => 0

/-- The sum of the lengths of the chunks that a trace of a read session completed. -/
def confirmedBytes : List Event → Nat
  | [] => 0
  | e :: es => confirmedAt e es + confirmedBytes es

/-- Whether a 3-byte serial read obtained its 3 bytes; true of every other event. -/
def Event.fullToken : Event → Bool
  | Event.serialRead length got => decide (length = 3 → got.length = 3)
  | _ => true

/-- Locals as `stale`, with `buf` holding "ack" from an earlier call. -/
def staleAck : Locals :=
  { stale with buf := [97, 99, 107] }

/-- A write session as the host sends it: a good chunk `[1, 2, 3]`, the unknown token "xyz",
a chunk `[9, 9]` with a wrong checksum, a good chunk `[5]`, then "rst". -/
def writeSession : List Nat :=
  [99, 104, 107, 3, 0, 1, 2, 3, 6, 0, 0, 0,
   120, 121, 122,
   99, 104, 107, 2, 0, 9, 9, 0, 0, 0, 0,
   99, 104, 107, 1, 0, 5, 5, 0, 0, 0,
   114, 115, 116]

/-- A read session as the host sends it: a chunk of 3 bytes confirmed with "ack", a chunk of
2 bytes answered with "nck", an oversized request for 9 bytes, a chunk of 1 byte confirmed
with "ack", then "rst". -/
def readSession : List Nat :=
  [99, 104, 107, 3, 0, 97, 99, 107,
   99, 104, 107, 2, 0, 110, 99, 107,
   99, 104, 107, 9, 0,
   99, 104, 107, 1, 0, 97, 99, 107,
   114, 115, 116]

/-- A read session in which the host falls silent: a chunk of 3 bytes confirmed with "ack",
then a request for 3 more bytes after whose data the host sends nothing. -/
def silentSession : List Nat :=
  [99, 104, 107, 3, 0, 97, 99, 107,
   99, 104, 107, 3, 0]

/-! ## Auxiliary lemmas -/

theorem foldl_getD_congr (M n : Nat) (d e : List Nat) (a : Nat)
    (h : ∀ i, i < n → d.getD i 0 = e.getD i 0) :
    (List.range n).foldl (fun sum i => (sum + d.getD i 0) % M) a
      = (List.range n).foldl (fun sum i => (sum + e.getD i 0) % M) a := by
  induction n with
  | zero => simp
  | succ n ih =>
    rw [List.range_succ, List.foldl_append, List.foldl_append, ih (fun i hi => h i (by omega))]
    simp only [List.foldl_cons, List.foldl_nil]
    rw [h n (by omega)]

theorem simpleChecksum_congr (n : Nat) (d e : List Nat)
    (h : ∀ i, i < n → d.getD i 0 = e.getD i 0) :
    simpleChecksum d n = simpleChecksum e n := by
  unfold simpleChecksum simpleChecksumW
  rw [foldl_getD_congr 65536 n d e 0 h]

theorem simpleChecksum_append (P X : List Nat) :
    simpleChecksum (P ++ X) P.length = simpleChecksum P P.length := by
  apply simpleChecksum_congr
  intro i hi
  simp [List.getD_eq_getElem?_getD, List.getElem?_append_left hi]

theorem le16_cons (a b : Nat) (t : List Nat) : le16 (a :: b :: t) = le16 [a, b] := by
  simp [le16]

theorem le32_append (c t : List Nat) (hc : c.length = 4) : le32 (c ++ t) = le32 c := by
  match c, hc with
  | [_, _, _, _], _ => simp [le32]

theorem wireReadLoop_append (L : Nat) (rx : List Nat) :
    ∀ (pre post : List Nat), (rx.take (L - pre.length)).length ≤ post.length →
      (wireReadLoop L rx pre.length (pre ++ post)).1
        = pre ++ rx.take (L - pre.length) ++ post.drop (rx.take (L - pre.length)).length := by
  induction rx with
  | nil => intro pre post _; simp [wireReadLoop]
  | cons b rx ih =>
    intro pre post h
    by_cases hi : pre.length < L
    · obtain ⟨k, hk⟩ : ∃ k, L - pre.length = k + 1 := ⟨L - pre.length - 1, by omega⟩
      rw [hk] at h ⊢
      match post, h with
      | p :: post, h =>
        have h3 : L - (pre ++ [b]).length = k := by simp; omega
        have h2 := ih (pre ++ [b]) post (by
          rw [h3]
          simp only [List.take_succ_cons, List.length_cons] at h
          omega)
        rw [h3] at h2
        simp only [wireReadLoop, hi, if_true]
        have h4 : (pre ++ p :: post).set pre.length b = (pre ++ [b]) ++ post := by simp
        rw [h4]
        simpa using h2
    · have : L - pre.length = 0 := by omega
      simp [wireReadLoop, hi, this]

theorem wireReadLoop_zero (L : Nat) (rx chunk : List Nat)
    (h : (rx.take L).length ≤ chunk.length) :
    (wireReadLoop L rx 0 chunk).1 = rx.take L ++ chunk.drop (rx.take L).length := by
  simpa using wireReadLoop_append L rx [] chunk (by simpa using h)

theorem map_range_getD (P : List Nat) (f : Nat → Nat) :
    (List.range P.length).map (fun i => if i < P.length then P.getD i 0 else f i) = P := by
  apply List.ext_getElem
  · simp
  · intro i h1 h2
    simp at h1
    simp [h1]

theorem simpleChecksum_lt (d : List Nat) (n : Nat) : simpleChecksum d n < 256 :=
  Nat.mod_lt _ (by decide)

theorem le32_bytes32 (v : Nat) (h : v < 4294967296) : le32 (bytes32 v) = v := by
  simp only [le32, bytes32, List.getD_cons_zero, List.getD_cons_succ]
  omega

theorem strcmp_lit3 (a b c x y z : Nat) (hx : x ≠ 0) (hy : y ≠ 0) (hz : z ≠ 0) :
    strcmp [a, b, c, 0] [x, y, z, 0] = 0 ↔ [a, b, c] = [x, y, z] := by
  by_cases ha : a = x
  · by_cases hb : b = y
    · by_cases hc : c = z
      · simp [strcmp, ha, hb, hc, hx, hy, hz]
      · have : (c : Int) - (z : Int) ≠ 0 := by omega
        simp [strcmp, ha, hb, hc, hx, hy, this]
    · have : (b : Int) - (y : Int) ≠ 0 := by omega
      simp [strcmp, ha, hb, hx, this]
  · have : (a : Int) - (x : Int) ≠ 0 := by omega
    simp [strcmp, ha, this]

theorem sum_take_succ_getD (d : List Nat) (n : Nat) :
    (d.take (n + 1)).sum = (d.take n).sum + d.getD n 0 := by
  by_cases h : n < d.length
  · rw [List.sum_take_succ d n h]
    simp [List.getD_eq_getElem?_getD, List.getElem?_eq_getElem h]
  · have h1 : d.take (n + 1) = d := List.take_of_length_le (by omega)
    have h2 : d.take n = d := List.take_of_length_le (by omega)
    have h3 : d.getD n 0 = 0 := by
      simp [List.getD_eq_getElem?_getD, List.getElem?_eq_none (by omega : d.length ≤ n)]
    rw [h1, h2, h3]
    rfl

theorem foldl_wrap_mod (M : Nat) (hM : 256 ∣ M) (d : List Nat) (n : Nat) :
    ((List.range n).foldl (fun sum i => (sum + d.getD i 0) % M) 0) % 256
      = (d.take n).sum % 256 := by
  induction n with
  | zero => simp
  | succ n ih =>
    rw [List.range_succ, List.foldl_append]
    simp only [List.foldl_cons, List.foldl_nil]
    rw [Nat.mod_mod_of_dvd _ hM, Nat.add_mod, ih, ← Nat.add_mod, sum_take_succ_getD]

theorem simpleChecksumW_take (M : Nat) (hM : 256 ∣ M) (d : List Nat) (n : Nat) :
    simpleChecksumW M d n = (d.take n).sum % 256 :=
  foldl_wrap_mod M hM d n

theorem simpleChecksum_eq_sum (d : List Nat) : simpleChecksum d d.length = d.sum % 256 := by
  have h := simpleChecksumW_take 65536 (by decide) d d.length
  rwa [List.take_length] at h

theorem simpleChecksumExact_take (d : List Nat) (n : Nat) :
    simpleChecksumExact d n = (d.take n).sum % 256 := by
  have h := simpleChecksumW_take 0 (by decide) d n
  simpa [simpleChecksumW, simpleChecksumExact] using h

theorem write_chunk_out (CHUNK_SIZE : Nat) (D : Device β) (junk : Locals) (s : State β) :
    (write_chunk CHUNK_SIZE D junk s).out
      = s.out ++ emitted s (write_chunk CHUNK_SIZE D junk s) := by
  simp only [write_chunk]
  split_ifs <;>
    simp [emitted, readBytes, ack, nck, delay, beginTransmission, wireWrite, endTransmission]

theorem read_chunk_out (CHUNK_SIZE : Nat) (D : Device β) (junk : Locals) (s : State β) :
    (read_chunk CHUNK_SIZE D junk s).out
      = s.out ++ emitted s (read_chunk CHUNK_SIZE D junk s) := by
  simp only [read_chunk]
  split_ifs <;>
    simp [emitted, readBytes, ack, nck, delay, beginTransmission, wireWrite, endTransmission,
      requestFrom, serialWrite]

theorem writtenBytes_append (a b : List Event) :
    writtenBytes (a ++ b) = writtenBytes a + writtenBytes b := by
  simp [writtenBytes]

theorem write_chunk_offset (CHUNK_SIZE : Nat) (D : Device β) (junk : Locals) (s : State β)
    (ho : s.addressOffset < 65536) :
    (write_chunk CHUNK_SIZE D junk s).addressOffset
      = (s.addressOffset + writtenBytes (emitted s (write_chunk CHUNK_SIZE D junk s))) % 65536 := by
  obtain ⟨o, inp, out, ta, tb, rb, dev⟩ := s
  simp only at ho
  have ho' : o % 65536 = o := Nat.mod_eq_of_lt ho
  simp only [write_chunk]
  split_ifs <;>
    simp_all [emitted, readBytes, ack, nck, delay, beginTransmission, wireWrite, endTransmission,
      writtenBytes, Event.written] <;>
    omega

theorem emitted_of_out (s s' : State β) (es : List Event) (h : s'.out = s.out ++ es) :
    emitted s s' = es := by
  simp [emitted, h]

theorem write_body_offset (CHUNK_SIZE : Nat) (D : Device β) (cmdBuf : List Nat) (junk : Locals)
    (s : State β) (ho : s.addressOffset < 65536) :
    ∃ es, (write_body CHUNK_SIZE D cmdBuf junk s).state.out = s.out ++ es
      ∧ (write_body CHUNK_SIZE D cmdBuf junk s).state.addressOffset
          = (s.addressOffset + writtenBytes es) % 65536 := by
  have ho' : s.addressOffset % 65536 = s.addressOffset := Nat.mod_eq_of_lt ho
  simp only [write_body]
  split_ifs
  · exact ⟨[], by simp [Step.state], by simp [Step.state, writtenBytes, ho']⟩
  · exact ⟨[Event.serialRead 3 (s.serialIn.take 3)], by simp [Step.state, readBytes],
      by simp [Step.state, readBytes, writtenBytes, Event.written, ho']⟩
  · refine ⟨[Event.serialRead 3 (s.serialIn.take 3), Event.ack]
        ++ emitted (ack (readBytes cmdBuf 3 s).2)
            (write_chunk CHUNK_SIZE D junk (ack (readBytes cmdBuf 3 s).2)), ?_, ?_⟩
    · simp only [Step.state]
      rw [write_chunk_out]
      simp [ack, readBytes]
    · simp only [Step.state]
      rw [write_chunk_offset CHUNK_SIZE D junk _ (by simpa [ack, readBytes] using ho)]
      simp [writtenBytes_append, ack, readBytes, writtenBytes, Event.written]
  · exact ⟨[Event.serialRead 3 (s.serialIn.take 3), Event.nck],
      by simp [Step.state, readBytes, nck],
      by simp [Step.state, readBytes, nck, writtenBytes, Event.written, ho']⟩

theorem write_loop_offset (CHUNK_SIZE : Nat) (D : Device β) (cmdBuf : Nat → List Nat)
    (junk : Nat → Locals) :
    ∀ (fuel : Nat) (s : State β), s.addressOffset < 65536 →
      ∃ es, (write_loop CHUNK_SIZE D cmdBuf junk fuel s).state.out = s.out ++ es
        ∧ (write_loop CHUNK_SIZE D cmdBuf junk fuel s).state.addressOffset
            = (s.addressOffset + writtenBytes es) % 65536 := by
  intro fuel
  induction fuel with
  | zero =>
    intro s ho
    exact ⟨[], by simp [write_loop, Outcome.state],
      by simp [write_loop, Outcome.state, writtenBytes, Nat.mod_eq_of_lt ho]⟩
  | succ fuel ih =>
    intro s ho
    obtain ⟨es, h1, h2⟩ := write_body_offset CHUNK_SIZE D (cmdBuf fuel) (junk fuel) s ho
    simp only [write_loop]
    cases hb : write_body CHUNK_SIZE D (cmdBuf fuel) (junk fuel) s with
    | idle s' =>
      rw [hb] at h1 h2
      exact ⟨es, h1, h2⟩
    | done s' =>
      rw [hb] at h1 h2
      exact ⟨es, h1, h2⟩
    | next s' =>
      rw [hb] at h1 h2
      simp only [Step.state] at h1 h2
      obtain ⟨es', h3, h4⟩ := ih s' (by rw [h2]; exact Nat.mod_lt _ (by decide))
      refine ⟨es ++ es', ?_, ?_⟩
      · simp only
        rw [h3, h1, List.append_assoc]
      · simp only
        rw [h4, h2, writtenBytes_append]
        omega

theorem strcmp_buf (got stale : List Nat) (h : got.length = 3) :
    strcmp ((got ++ stale.drop got.length).take 3 ++ [0]) ACK = 0 ↔ got = [97, 99, 107] := by
  match got, h with
  | [a, b, c], _ =>
    simpa using strcmp_lit3 a b c 97 99 107 (by decide) (by decide) (by decide)

theorem read_chunk_offset (CHUNK_SIZE : Nat) (D : Device β) (junk : Locals) (s : State β)
    (ho : s.addressOffset < 65536) :
    (∀ X, confirmedBytes (emitted s (read_chunk CHUNK_SIZE D junk s) ++ X)
        = confirmedBytes (emitted s (read_chunk CHUNK_SIZE D junk s)) + confirmedBytes X)
    ∧ ((emitted s (read_chunk CHUNK_SIZE D junk s)).all Event.fullToken = true →
        (read_chunk CHUNK_SIZE D junk s).addressOffset
          = (s.addressOffset + confirmedBytes (emitted s (read_chunk CHUNK_SIZE D junk s)))
              % 65536) := by
  obtain ⟨o, inp, out, ta, tb, rb, dev⟩ := s
  simp only at ho
  have ho' : o % 65536 = o := Nat.mod_eq_of_lt ho
  simp only [read_chunk]
  split_ifs with h1 h2 h3
  · simp [emitted, readBytes, nck, confirmedBytes, confirmedAt, ho']
  · simp [emitted, readBytes, ack, nck, beginTransmission, wireWrite, endTransmission,
      confirmedBytes, confirmedAt, ho']
  · simp only [emitted, readBytes, ack, nck, delay, beginTransmission, wireWrite,
      endTransmission, requestFrom, serialWrite] at h3 ⊢
    constructor
    · intro X
      simp [confirmedBytes, confirmedAt]
    · intro hfull
      simp [Event.fullToken] at hfull
      have hlen : (List.take 3 (List.drop 2 inp)).length = 3 := by simp; omega
      rw [Ne, strcmp_buf _ _ hlen] at h3
      simp [confirmedBytes, confirmedAt, h3, ho']
  · simp only [emitted, readBytes, ack, nck, delay, beginTransmission, wireWrite,
      endTransmission, requestFrom, serialWrite] at h3 ⊢
    constructor
    · intro X
      simp [confirmedBytes, confirmedAt]
    · intro hfull
      simp [Event.fullToken] at hfull
      have hlen : (List.take 3 (List.drop 2 inp)).length = 3 := by simp; omega
      rw [Ne, not_not, strcmp_buf _ _ hlen] at h3
      simp [confirmedBytes, confirmedAt, h3]

theorem read_chunk_lt (CHUNK_SIZE : Nat) (D : Device β) (junk : Locals) (s : State β)
    (ho : s.addressOffset < 65536) :
    (read_chunk CHUNK_SIZE D junk s).addressOffset < 65536 := by
  simp only [read_chunk]
  split_ifs <;>
    simp [readBytes, ack, nck, delay, beginTransmission, wireWrite, endTransmission,
      requestFrom, serialWrite] <;>
    omega

theorem read_body_lt (CHUNK_SIZE : Nat) (D : Device β) (cmdBuf : List Nat) (junk : Locals)
    (s : State β) (ho : s.addressOffset < 65536) :
    (read_body CHUNK_SIZE D cmdBuf junk s).state.addressOffset < 65536 := by
  simp only [read_body]
  split_ifs
  · simpa [Step.state] using ho
  · simpa [Step.state, readBytes] using ho
  · simp only [Step.state]
    exact read_chunk_lt CHUNK_SIZE D junk _ (by simpa [ack, readBytes] using ho)
  · simpa [Step.state, readBytes, nck] using ho

theorem read_body_offset (CHUNK_SIZE : Nat) (D : Device β) (cmdBuf : List Nat) (junk : Locals)
    (s : State β) (ho : s.addressOffset < 65536) :
    ∃ es, (read_body CHUNK_SIZE D cmdBuf junk s).state.out = s.out ++ es
      ∧ (∀ X, confirmedBytes (es ++ X) = confirmedBytes es + confirmedBytes X)
      ∧ (es.all Event.fullToken = true →
          (read_body CHUNK_SIZE D cmdBuf junk s).state.addressOffset
            = (s.addressOffset + confirmedBytes es) % 65536) := by
  have ho' : s.addressOffset % 65536 = s.addressOffset := Nat.mod_eq_of_lt ho
  simp only [read_body]
  split_ifs
  · exact ⟨[], by simp [Step.state], by simp [confirmedBytes],
      by simp [Step.state, confirmedBytes, ho']⟩
  · exact ⟨[Event.serialRead 3 (s.serialIn.take 3)], by simp [Step.state, readBytes],
      by simp [confirmedBytes, confirmedAt],
      by simp [Step.state, readBytes, confirmedBytes, confirmedAt, ho']⟩
  · obtain ⟨hadd, hoff⟩ := read_chunk_offset CHUNK_SIZE D junk (ack (readBytes cmdBuf 3 s).2)
      (by simpa [ack, readBytes] using ho)
    refine ⟨[Event.serialRead 3 (s.serialIn.take 3), Event.ack]
        ++ emitted (ack (readBytes cmdBuf 3 s).2)
            (read_chunk CHUNK_SIZE D junk (ack (readBytes cmdBuf 3 s).2)), ?_, ?_, ?_⟩
    · simp only [Step.state]
      rw [read_chunk_out]
      simp [ack, readBytes]
    · intro X
      simp only [List.cons_append, List.nil_append, confirmedBytes, confirmedAt, Nat.zero_add]
      exact hadd X
    · intro hfull
      simp only [Step.state]
      rw [hoff (by
        simp only [List.all_append, Bool.and_eq_true] at hfull
        exact hfull.2)]
      simp [confirmedBytes, confirmedAt, ack, readBytes]
  · exact ⟨[Event.serialRead 3 (s.serialIn.take 3), Event.nck],
      by simp [Step.state, readBytes, nck], by simp [confirmedBytes, confirmedAt],
      by simp [Step.state, readBytes, nck, confirmedBytes, confirmedAt, ho']⟩

theorem read_loop_offset (CHUNK_SIZE : Nat) (D : Device β) (cmdBuf : Nat → List Nat)
    (junk : Nat → Locals) :
    ∀ (fuel : Nat) (s : State β), s.addressOffset < 65536 →
      ∃ es, (read_loop CHUNK_SIZE D cmdBuf junk fuel s).state.out = s.out ++ es
        ∧ (es.all Event.fullToken = true →
            (read_loop CHUNK_SIZE D cmdBuf junk fuel s).state.addressOffset
              = (s.addressOffset + confirmedBytes es) % 65536) := by
  intro fuel
  induction fuel with
  | zero =>
    intro s ho
    exact ⟨[], by simp [read_loop, Outcome.state],
      by simp [read_loop, Outcome.state, confirmedBytes, Nat.mod_eq_of_lt ho]⟩
  | succ fuel ih =>
    intro s ho
    obtain ⟨es, h1, hadd, h2⟩ := read_body_offset CHUNK_SIZE D (cmdBuf fuel) (junk fuel) s ho
    simp only [read_loop]
    cases hb : read_body CHUNK_SIZE D (cmdBuf fuel) (junk fuel) s with
    | idle s' =>
      rw [hb] at h1 h2
      exact ⟨es, h1, h2⟩
    | done s' =>
      rw [hb] at h1 h2
      exact ⟨es, h1, h2⟩
    | next s' =>
      rw [hb] at h1 h2
      simp only [Step.state] at h1 h2
      have hs' : s'.addressOffset < 65536 := by
        have := read_body_lt CHUNK_SIZE D (cmdBuf fuel) (junk fuel) s ho
        rwa [hb] at this
      obtain ⟨es', h3, h4⟩ := ih s' hs'
      refine ⟨es ++ es', ?_, ?_⟩
      · simp only
        rw [h3, h1, List.append_assoc]
      · intro hfull
        simp only [List.all_append, Bool.and_eq_true] at hfull
        simp only
        rw [h4 hfull.2, h2 hfull.1, hadd]
        omega

/-! ## The claims -/

/-- C1: for every starting offset and every declared length `L ≤ CHUNK_SIZE`, when
`write_chunk` receives the `L` payload bytes `P`, a 32-bit checksum equal to the checksum it
computes itself, and `endTransmission` answers 0, the offset afterwards is `(o + L) % 2^16`
and the call issued exactly one bus write transaction (one `beginTransmission`, one
`endTransmission`); the whole sequence of actions of the call is listed. -/
theorem write_chunk_success (CHUNK_SIZE : Nat) (D : Device β) (junk : Locals) (s : State β)
    (l0 l1 : Nat) (P c rest : List Nat)
    (hin : s.serialIn = l0 :: l1 :: (P ++ (c ++ rest)))
    (hP : P.length = le16 [l0, l1])
    (hL : le16 [l0, l1] ≤ CHUNK_SIZE)
    (hc : c.length = 4)
    (hsum : le32 c = simpleChecksum P P.length)
    (hbus : (D.transmit s.dev 0x50
      (s.addressOffset / 256 % 256 :: s.addressOffset % 256 :: P)).1 = 0) :
    (write_chunk CHUNK_SIZE D junk s).addressOffset = (s.addressOffset + P.length) % 65536
    ∧ emitted s (write_chunk CHUNK_SIZE D junk s) =
        [Event.serialRead 2 [l0, l1], Event.ack, Event.serialRead P.length P, Event.ack,
         Event.serialRead 4 c, Event.ack, Event.delay 5, Event.beginTransmission 0x50,
         Event.wireWrite [s.addressOffset / 256 % 256], Event.wireWrite [s.addressOffset % 256],
         Event.wireWrite P,
         Event.endTransmission 0x50 (s.addressOffset / 256 % 256 :: s.addressOffset % 256 :: P) 0,
         Event.ack]
    ∧ (emitted s (write_chunk CHUNK_SIZE D junk s)).countP Event.isBegin = 1
    ∧ (emitted s (write_chunk CHUNK_SIZE D junk s)).countP Event.isEnd = 1 := by
  have h16 : ∀ t, le16 (l0 :: l1 :: t) = P.length := fun t => by rw [le16_cons, hP]
  rw [← hP] at hL
  obtain ⟨o, inp, out, ta, tb, rb, dev⟩ := s
  simp only at hin hbus
  subst hin
  simp [write_chunk, readBytes, h16, Nat.not_lt.mpr hL, le32_append, ack, nck, simpleChecksum_append, hsum, hc,
    delay, beginTransmission, wireWrite, endTransmission, hbus, emitted, Event.isEnd,
    Event.isBegin]

/-- C1 at a concrete input: a 3-byte chunk written at offset 65534 over a bus that answers 0
wraps the offset to 1, with one bus write transaction. -/
theorem write_chunk_success_witness :
    le16 [3, 0] ≤ 8
    ∧ le32 [6, 0, 0, 0] = simpleChecksum [1, 2, 3] 3
    ∧ (write_chunk 8 (cannedBus 0 []) stale
        (start () 65534 [3, 0, 1, 2, 3, 6, 0, 0, 0])).addressOffset = 1
    ∧ (emitted (start () 65534 [3, 0, 1, 2, 3, 6, 0, 0, 0])
        (write_chunk 8 (cannedBus 0 []) stale
          (start () 65534 [3, 0, 1, 2, 3, 6, 0, 0, 0]))).countP Event.isEnd = 1 :=
  have h := write_chunk_success 8 (cannedBus 0 []) stale
    (start () 65534 [3, 0, 1, 2, 3, 6, 0, 0, 0]) 3 0 [1, 2, 3] [6, 0, 0, 0] []
    rfl (by decide) (by decide) rfl (by decide) rfl
  ⟨by decide, by decide, h.1, h.2.2.2⟩

/-- C2: when `write_chunk` gets a full payload of declared length `L ≤ CHUNK_SIZE` and a 32-bit
checksum from the host that differs from the checksum it computes, the offset is left as it
was, no I2C transaction is begun or ended, the device is untouched, and the last thing sent
is a negative-acknowledgment. -/
theorem write_chunk_checksum_mismatch (CHUNK_SIZE : Nat) (D : Device β) (junk : Locals)
    (s : State β) (l0 l1 : Nat) (P c rest : List Nat)
    (hin : s.serialIn = l0 :: l1 :: (P ++ (c ++ rest)))
    (hP : P.length = le16 [l0, l1])
    (hL : le16 [l0, l1] ≤ CHUNK_SIZE)
    (hc : c.length = 4)
    (hsum : le32 c ≠ simpleChecksum P P.length) :
    (write_chunk CHUNK_SIZE D junk s).addressOffset = s.addressOffset
    ∧ emitted s (write_chunk CHUNK_SIZE D junk s) =
        [Event.serialRead 2 [l0, l1], Event.ack, Event.serialRead P.length P, Event.ack,
         Event.serialRead 4 c, Event.nck]
    ∧ (emitted s (write_chunk CHUNK_SIZE D junk s)).countP Event.isBegin = 0
    ∧ (emitted s (write_chunk CHUNK_SIZE D junk s)).countP Event.isEnd = 0
    ∧ (emitted s (write_chunk CHUNK_SIZE D junk s)).getLast? = some Event.nck
    ∧ (write_chunk CHUNK_SIZE D junk s).dev = s.dev := by
  have h16 : ∀ t, le16 (l0 :: l1 :: t) = P.length := fun t => by rw [le16_cons, hP]
  rw [← hP] at hL
  obtain ⟨o, inp, out, ta, tb, rb, dev⟩ := s
  simp only at hin
  subst hin
  simp [write_chunk, readBytes, h16, Nat.not_lt.mpr hL, le32_append, ack, nck,
    simpleChecksum_append, hsum, hc, emitted, Event.isEnd, Event.isBegin]

/-- C2 at a concrete input: the host sends checksum 262 for the payload `[1, 2, 3]` (low byte 6,
as the local checksum, but a different 32-bit value); the offset stays 0 and the call ends
with a negative-acknowledgment without any bus transaction. -/
theorem write_chunk_checksum_mismatch_witness :
    le32 [6, 1, 0, 0] ≠ simpleChecksum [1, 2, 3] 3
    ∧ (write_chunk 8 (cannedBus 0 []) stale
        (start () 0 [3, 0, 1, 2, 3, 6, 1, 0, 0])).addressOffset = 0
    ∧ emitted (start () 0 [3, 0, 1, 2, 3, 6, 1, 0, 0])
        (write_chunk 8 (cannedBus 0 []) stale (start () 0 [3, 0, 1, 2, 3, 6, 1, 0, 0]))
      = [Event.serialRead 2 [3, 0], Event.ack, Event.serialRead 3 [1, 2, 3], Event.ack,
         Event.serialRead 4 [6, 1, 0, 0], Event.nck] :=
  have h := write_chunk_checksum_mismatch 8 (cannedBus 0 []) stale
    (start () 0 [3, 0, 1, 2, 3, 6, 1, 0, 0]) 3 0 [1, 2, 3] [6, 1, 0, 0] []
    rfl (by decide) (by decide) rfl (by decide)
  ⟨by decide, h.1, h.2.1⟩

/-- C3: round trip against the ideal EEPROM. After `write_chunk` has written the payload `P`
(`P.length ≤ CHUNK_SIZE`, correct checksum) at offset 0, a `read_chunk` at offset 0 asking for
`P.length` bytes from the device as the write left it sends the host a 32-bit checksum field
whose value is `simpleChecksum P` and then exactly the bytes of `P`, in order. -/
theorem write_then_read_round_trip (CHUNK_SIZE : Nat) (jw jr : Locals) (sw sr : State Eeprom)
    (l0 l1 : Nat) (P c rest rest' : List Nat)
    (hw0 : sw.addressOffset = 0)
    (hwin : sw.serialIn = l0 :: l1 :: (P ++ (c ++ rest)))
    (hP : P.length = le16 [l0, l1])
    (hL : le16 [l0, l1] ≤ CHUNK_SIZE)
    (hc : c.length = 4)
    (hsum : le32 c = simpleChecksum P P.length)
    (hbuf : jr.chunk.length = CHUNK_SIZE)
    (hr0 : sr.addressOffset = 0)
    (hrdev : sr.dev = (write_chunk CHUNK_SIZE idealEeprom jw sw).dev)
    (hrin : sr.serialIn = l0 :: l1 :: rest') :
    emitted sr (read_chunk CHUNK_SIZE idealEeprom jr sr) =
      [Event.serialRead 2 [l0, l1], Event.ack, Event.beginTransmission 0x50,
       Event.wireWrite [0], Event.wireWrite [0], Event.endTransmission 0x50 [0, 0] 0,
       Event.delay 5, Event.requestFrom 0x50 P.length,
       Event.serialWrite (bytes32 (simpleChecksum P P.length)), Event.serialWrite P,
       Event.serialRead 3 (rest'.take 3)]
    ∧ le32 (bytes32 (simpleChecksum P P.length)) = simpleChecksum P P.length := by
  have h16 : ∀ t, le16 (l0 :: l1 :: t) = P.length := fun t => by rw [le16_cons, hP]
  rw [← hP] at hL
  have hdev : (write_chunk CHUNK_SIZE idealEeprom jw sw).dev
      = { mem := fun a => if a < P.length then P.getD a 0 else sw.dev.mem a, ptr := 0 } := by
    obtain ⟨o, inp, out, ta, tb, rb, dev⟩ := sw
    simp only at hw0 hwin
    subst hw0 hwin
    simp [write_chunk, readBytes, h16, Nat.not_lt.mpr hL, le32_append, ack, nck,
      simpleChecksum_append, hsum, hc, delay, beginTransmission, wireWrite, endTransmission,
      idealEeprom]
  rw [hdev] at hrdev
  obtain ⟨o, inp, out, ta, tb, rb, dev⟩ := sr
  simp only at hr0 hrin hrdev
  subst hr0 hrin hrdev
  have hrx : (List.range P.length).map
      (fun i => if i < P.length then P[i]?.getD 0 else sw.dev.mem i) = P := by
    simpa using map_range_getD P sw.dev.mem
  have hloop : (wireReadLoop P.length P 0 jr.chunk).1 = P ++ jr.chunk.drop P.length := by
    rw [wireReadLoop_zero _ _ _ (by simp; omega)]
    simp
  refine ⟨?_, le32_bytes32 _ (lt_trans (simpleChecksum_lt _ _) (by decide))⟩
  simp [read_chunk, readBytes, h16, Nat.not_lt.mpr hL, ack, nck, delay, beginTransmission,
    wireWrite, endTransmission, requestFrom, serialWrite, idealEeprom, hrx, hloop,
    simpleChecksum_append, emitted]
  split <;> simp

/-- C3 at the scenario of the specification: `[1, 2, 3]` written to a blank EEPROM at offset 0
and read back at offset 0 comes back as checksum 6 followed by `[1, 2, 3]`; both offsets end
at 3. -/
theorem write_then_read_round_trip_witness :
    emitted
        (start (write_chunk 8 idealEeprom stale
          (start blank 0 [3, 0, 1, 2, 3, 6, 0, 0, 0])).dev 0 [3, 0, 97, 99, 107])
        (read_chunk 8 idealEeprom stale
          (start (write_chunk 8 idealEeprom stale
            (start blank 0 [3, 0, 1, 2, 3, 6, 0, 0, 0])).dev 0 [3, 0, 97, 99, 107]))
      = [Event.serialRead 2 [3, 0], Event.ack, Event.beginTransmission 0x50,
         Event.wireWrite [0], Event.wireWrite [0], Event.endTransmission 0x50 [0, 0] 0,
         Event.delay 5, Event.requestFrom 0x50 3,
         Event.serialWrite [6, 0, 0, 0], Event.serialWrite [1, 2, 3],
         Event.serialRead 3 [97, 99, 107]]
    ∧ le32 [6, 0, 0, 0] = 6
    ∧ (write_chunk 8 idealEeprom stale
        (start blank 0 [3, 0, 1, 2, 3, 6, 0, 0, 0])).addressOffset = 3
    ∧ (read_chunk 8 idealEeprom stale
        (start (write_chunk 8 idealEeprom stale
          (start blank 0 [3, 0, 1, 2, 3, 6, 0, 0, 0])).dev 0
          [3, 0, 97, 99, 107])).addressOffset = 3 :=
  have h := write_then_read_round_trip 8 stale stale
    (start blank 0 [3, 0, 1, 2, 3, 6, 0, 0, 0])
    (start (write_chunk 8 idealEeprom stale
      (start blank 0 [3, 0, 1, 2, 3, 6, 0, 0, 0])).dev 0 [3, 0, 97, 99, 107])
    3 0 [1, 2, 3] [6, 0, 0, 0] [] [97, 99, 107]
    rfl rfl (by decide) (by decide) rfl (by decide) rfl rfl rfl rfl
  ⟨h.1, h.2, by decide, by decide⟩

/-- C4: for every input, whenever `write_chunk` (data write) or `read_chunk` (address-set write)
ends an I2C transmission with a non-zero status, the handler returns with the offset it
started with and its last action is a negative-acknowledgment; `read_chunk` then issues no
`requestFrom` and writes nothing (no checksum, no chunk bytes) to the host. -/
theorem bus_failure_keeps_offset (CHUNK_SIZE : Nat) (D : Device β) (junk : Locals)
    (s : State β) :
    (∀ a d st, Event.endTransmission a d st ∈ emitted s (write_chunk CHUNK_SIZE D junk s) →
      st ≠ 0 →
        (write_chunk CHUNK_SIZE D junk s).addressOffset = s.addressOffset
        ∧ (emitted s (write_chunk CHUNK_SIZE D junk s)).getLast? = some Event.nck)
    ∧ (∀ a d st, Event.endTransmission a d st ∈ emitted s (read_chunk CHUNK_SIZE D junk s) →
      st ≠ 0 →
        (read_chunk CHUNK_SIZE D junk s).addressOffset = s.addressOffset
        ∧ (emitted s (read_chunk CHUNK_SIZE D junk s)).getLast? = some Event.nck
        ∧ (∀ q r, Event.requestFrom q r ∉ emitted s (read_chunk CHUNK_SIZE D junk s))
        ∧ (∀ b, Event.serialWrite b ∉ emitted s (read_chunk CHUNK_SIZE D junk s))) := by
  obtain ⟨o, inp, out, ta, tb, rb, dev⟩ := s
  refine ⟨?_, ?_⟩
  · intro a d st hmem hst
    simp only [write_chunk] at hmem ⊢
    split_ifs at hmem ⊢ <;>
      simp_all [emitted, readBytes, ack, nck, delay, beginTransmission, wireWrite,
        endTransmission]
  · intro a d st hmem hst
    simp only [read_chunk] at hmem ⊢
    split_ifs at hmem ⊢ <;>
      simp_all [emitted, readBytes, ack, nck, delay, beginTransmission, wireWrite,
        endTransmission, requestFrom, serialWrite]

/-- C4 at concrete inputs: on a bus that answers every transmission with status 2, a valid
write chunk and a valid read request both end with a negative-acknowledgment and offset 10
unchanged; the read issues no request and sends nothing to the host. -/
theorem bus_failure_keeps_offset_witness :
    ((write_chunk 8 (cannedBus 2 [1, 2, 3]) stale
        (start () 10 [3, 0, 1, 2, 3, 6, 0, 0, 0])).addressOffset = 10
      ∧ (emitted (start () 10 [3, 0, 1, 2, 3, 6, 0, 0, 0])
          (write_chunk 8 (cannedBus 2 [1, 2, 3]) stale
            (start () 10 [3, 0, 1, 2, 3, 6, 0, 0, 0]))).getLast? = some Event.nck)
    ∧ ((read_chunk 8 (cannedBus 2 [1, 2, 3]) stale
        (start () 10 [3, 0, 97, 99, 107])).addressOffset = 10
      ∧ (emitted (start () 10 [3, 0, 97, 99, 107])
          (read_chunk 8 (cannedBus 2 [1, 2, 3]) stale
            (start () 10 [3, 0, 97, 99, 107]))).getLast? = some Event.nck
      ∧ (∀ q r, Event.requestFrom q r ∉ emitted (start () 10 [3, 0, 97, 99, 107])
          (read_chunk 8 (cannedBus 2 [1, 2, 3]) stale (start () 10 [3, 0, 97, 99, 107])))
      ∧ (∀ b, Event.serialWrite b ∉ emitted (start () 10 [3, 0, 97, 99, 107])
          (read_chunk 8 (cannedBus 2 [1, 2, 3]) stale (start () 10 [3, 0, 97, 99, 107])))) :=
  ⟨(bus_failure_keeps_offset 8 (cannedBus 2 [1, 2, 3]) stale
      (start () 10 [3, 0, 1, 2, 3, 6, 0, 0, 0])).1 0x50 [0, 10, 1, 2, 3] 2
      (by decide) (by decide),
   (bus_failure_keeps_offset 8 (cannedBus 2 [1, 2, 3]) stale
      (start () 10 [3, 0, 97, 99, 107])).2 0x50 [0, 10] 2 (by decide) (by decide)⟩

/-- C5: when the declared 16-bit length exceeds `CHUNK_SIZE`, `write_chunk` consumes the 2 length
bytes and nothing else, sends one negative-acknowledgment and no acknowledgment, starts no bus
transaction and leaves the offset (and every other part of the state) as it was. A length
equal to `CHUNK_SIZE` is not rejected: it is acknowledged and the payload is read. -/
theorem write_chunk_oversized (CHUNK_SIZE : Nat) (D : Device β) (junk : Locals) (s : State β)
    (l0 l1 : Nat) (rest : List Nat) (hin : s.serialIn = l0 :: l1 :: rest) :
    (CHUNK_SIZE < le16 [l0, l1] →
      write_chunk CHUNK_SIZE D junk s
        = { s with serialIn := rest,
                   out := s.out ++ [Event.serialRead 2 [l0, l1], Event.nck] })
    ∧ (le16 [l0, l1] = CHUNK_SIZE →
      (emitted s (write_chunk CHUNK_SIZE D junk s)).take 3
        = [Event.serialRead 2 [l0, l1], Event.ack,
           Event.serialRead CHUNK_SIZE (rest.take CHUNK_SIZE)]) := by
  obtain ⟨o, inp, out, ta, tb, rb, dev⟩ := s
  simp only at hin
  subst hin
  refine ⟨?_, ?_⟩
  · intro h
    simp [write_chunk, readBytes, le16_cons, h, nck]
  · intro h
    simp only [write_chunk]
    split_ifs <;>
      simp_all [emitted, readBytes, le16_cons, ack, nck, delay, beginTransmission, wireWrite,
        endTransmission]

/-- C5 at concrete inputs, `CHUNK_SIZE = 8`: a declared length 9 is rejected after the 2 length
bytes, the payload bytes stay in the input; a declared length 8 is acknowledged and its 8
payload bytes are read. -/
theorem write_chunk_oversized_witness :
    write_chunk 8 (cannedBus 0 []) stale (start () 10 [9, 0, 1, 2, 3])
      = { start () 10 [9, 0, 1, 2, 3] with
          serialIn := [1, 2, 3], out := [Event.serialRead 2 [9, 0], Event.nck] }
    ∧ (emitted (start () 10 [8, 0, 1, 2, 3, 4, 5, 6, 7, 8, 36, 0, 0, 0])
        (write_chunk 8 (cannedBus 0 []) stale
          (start () 10 [8, 0, 1, 2, 3, 4, 5, 6, 7, 8, 36, 0, 0, 0]))).take 3
      = [Event.serialRead 2 [8, 0], Event.ack, Event.serialRead 8 [1, 2, 3, 4, 5, 6, 7, 8]] :=
  ⟨(write_chunk_oversized 8 (cannedBus 0 []) stale (start () 10 [9, 0, 1, 2, 3])
      9 0 [1, 2, 3] rfl).1 (by decide),
   (write_chunk_oversized 8 (cannedBus 0 []) stale
      (start () 10 [8, 0, 1, 2, 3, 4, 5, 6, 7, 8, 36, 0, 0, 0])
      8 0 [1, 2, 3, 4, 5, 6, 7, 8, 36, 0, 0, 0] rfl).2 (by decide)⟩

/-- C6: when `read_chunk` is asked for `L ≤ CHUNK_SIZE` bytes, the address-set transmission
succeeds and the host answers "ack", the offset afterwards is `(o + L) % 2^16`, whatever the
device `D` makes available on the request (any number `k` of bytes, fewer than `L` and none
included): the advance is by the requested length. -/
theorem read_chunk_advance (CHUNK_SIZE : Nat) (D : Device β) (junk : Locals) (s : State β)
    (l0 l1 : Nat) (rest : List Nat)
    (hin : s.serialIn = l0 :: l1 :: 97 :: 99 :: 107 :: rest)
    (hL : le16 [l0, l1] ≤ CHUNK_SIZE)
    (hbus : (D.transmit s.dev 0x50 [s.addressOffset / 256 % 256, s.addressOffset % 256]).1 = 0) :
    (read_chunk CHUNK_SIZE D junk s).addressOffset
      = (s.addressOffset + le16 [l0, l1]) % 65536 := by
  obtain ⟨o, inp, out, ta, tb, rb, dev⟩ := s
  simp only at hin hbus
  subst hin
  have hs : strcmp [97, 99, 107, 0] ACK = 0 := by decide
  simp [read_chunk, readBytes, le16_cons, Nat.not_lt.mpr hL, ack, nck, delay, beginTransmission,
    wireWrite, endTransmission, requestFrom, serialWrite, hbus, hs]

/-- C6 at a concrete input: 3 bytes are requested at offset 65535, the bus makes only the one
byte 5 available, the host answers "ack": the offset becomes 2, advanced by 3 with 16-bit
wrap-around. -/
theorem read_chunk_advance_witness :
    le16 [3, 0] ≤ 8
    ∧ (read_chunk 8 (cannedBus 0 [5]) stale
        (start () 65535 [3, 0, 97, 99, 107])).addressOffset = 2 :=
  ⟨by decide,
   read_chunk_advance 8 (cannedBus 0 [5]) stale (start () 65535 [3, 0, 97, 99, 107])
     3 0 [] rfl (by decide) rfl⟩

/-- C7, the code at a short read: asked for 2 bytes, the bus makes the single byte 5 available
and the chunk buffer held 7 at index 1 before. `read_chunk` sends the checksum 12 (over
both buffer bytes, 5 and the former 7) and the 2 bytes `[5, 7]`, while the checksum of the
one byte read from the bus is 5. -/
theorem read_chunk_short_read_checksum :
    emitted (start () 0 [2, 0]) (read_chunk 8 (cannedBus 0 [5]) stale (start () 0 [2, 0]))
      = [Event.serialRead 2 [2, 0], Event.ack, Event.beginTransmission 0x50,
         Event.wireWrite [0], Event.wireWrite [0], Event.endTransmission 0x50 [0, 0] 0,
         Event.delay 5, Event.requestFrom 0x50 2,
         Event.serialWrite [12, 0, 0, 0], Event.serialWrite [5, 7], Event.serialRead 3 []]
    ∧ simpleChecksum [5] 1 = 5 := by
  decide

/-- C8: when `read_chunk` reaches the host-confirmation step and reads the 3 bytes `t0 t1 t2`,
the offset afterwards is `(o + L) % 2^16` if they are exactly "ack" and the old offset
otherwise; the last action of the call is that 3-byte read, right after the chunk data, so
nothing (no negative-acknowledgment, no byte) is sent after the data. For a non-empty chunk
the offset changes if and only if the 3 bytes are exactly "ack". -/
theorem read_chunk_confirmation (CHUNK_SIZE : Nat) (D : Device β) (junk : Locals) (s : State β)
    (l0 l1 t0 t1 t2 : Nat) (rest : List Nat)
    (hin : s.serialIn = l0 :: l1 :: t0 :: t1 :: t2 :: rest)
    (hL : le16 [l0, l1] ≤ CHUNK_SIZE)
    (hbus : (D.transmit s.dev 0x50 [s.addressOffset / 256 % 256, s.addressOffset % 256]).1 = 0) :
    (read_chunk CHUNK_SIZE D junk s).addressOffset
      = (if [t0, t1, t2] = [97, 99, 107] then (s.addressOffset + le16 [l0, l1]) % 65536
         else s.addressOffset)
    ∧ (∃ checksum chunk, emitted s (read_chunk CHUNK_SIZE D junk s) =
        [Event.serialRead 2 [l0, l1], Event.ack, Event.beginTransmission 0x50,
         Event.wireWrite [s.addressOffset / 256 % 256], Event.wireWrite [s.addressOffset % 256],
         Event.endTransmission 0x50 [s.addressOffset / 256 % 256, s.addressOffset % 256] 0,
         Event.delay 5, Event.requestFrom 0x50 (le16 [l0, l1]),
         Event.serialWrite checksum, Event.serialWrite chunk,
         Event.serialRead 3 [t0, t1, t2]])
    ∧ (0 < le16 [l0, l1] → s.addressOffset < 65536 →
        ((read_chunk CHUNK_SIZE D junk s).addressOffset ≠ s.addressOffset
          ↔ [t0, t1, t2] = [97, 99, 107])) := by
  obtain ⟨o, inp, out, ta, tb, rb, dev⟩ := s
  simp only at hin hbus
  subst hin
  have hs : strcmp [t0, t1, t2, 0] ACK = 0 ↔ [t0, t1, t2] = [97, 99, 107] :=
    strcmp_lit3 t0 t1 t2 97 99 107 (by decide) (by decide) (by decide)
  have hlt : le16 [l0, l1] < 65536 := by
    simp only [le16, List.getD_cons_zero, List.getD_cons_succ]
    omega
  by_cases htok : [t0, t1, t2] = [97, 99, 107]
  · have hs1 : strcmp [97, 99, 107, 0] ACK = 0 := by decide
    simp only [List.cons.injEq, and_true] at htok
    obtain ⟨rfl, rfl, rfl⟩ := htok
    refine ⟨?_, ?_, ?_⟩
    · simp [read_chunk, readBytes, le16_cons, Nat.not_lt.mpr hL, ack, nck, delay,
        beginTransmission, wireWrite, endTransmission, requestFrom, serialWrite, hbus, hs1]
    · simp [read_chunk, readBytes, le16_cons, Nat.not_lt.mpr hL, ack, nck, delay,
        beginTransmission, wireWrite, endTransmission, requestFrom, serialWrite, hbus, hs1,
        emitted]
    · intro h0 ho
      simp only at ho
      simp [read_chunk, readBytes, le16_cons, Nat.not_lt.mpr hL, ack, nck, delay,
        beginTransmission, wireWrite, endTransmission, requestFrom, serialWrite, hbus, hs1]
      omega
  · have hs1 : ¬ strcmp [t0, t1, t2, 0] ACK = 0 := fun h => htok (hs.mp h)
    refine ⟨?_, ?_, ?_⟩
    · simp [read_chunk, readBytes, le16_cons, Nat.not_lt.mpr hL, ack, nck, delay,
        beginTransmission, wireWrite, endTransmission, requestFrom, serialWrite, hbus, hs1, htok]
    · simp [read_chunk, readBytes, le16_cons, Nat.not_lt.mpr hL, ack, nck, delay,
        beginTransmission, wireWrite, endTransmission, requestFrom, serialWrite, hbus, hs1,
        emitted]
    · intro h0 ho
      simp [read_chunk, readBytes, le16_cons, Nat.not_lt.mpr hL, ack, nck, delay,
        beginTransmission, wireWrite, endTransmission, requestFrom, serialWrite, hbus, hs1, htok]

/-- C8 at a concrete input: the host answers the chunk with the bytes 'a', 'c', 0 instead of
"ack"; the offset stays 10 and the call ends with the 3-byte read. -/
theorem read_chunk_confirmation_witness :
    [97, 99, 0] ≠ [97, 99, 107]
    ∧ (read_chunk 8 (cannedBus 0 [1, 2, 3]) stale
        (start () 10 [3, 0, 97, 99, 0, 107])).addressOffset = 10
    ∧ ((read_chunk 8 (cannedBus 0 [1, 2, 3]) stale
        (start () 10 [3, 0, 97, 99, 0, 107])).addressOffset ≠ 10
        ↔ [97, 99, 0] = [97, 99, 107]) :=
  have h := read_chunk_confirmation 8 (cannedBus 0 [1, 2, 3]) stale
    (start () 10 [3, 0, 97, 99, 0, 107]) 3 0 97 99 0 [107] rfl (by decide) rfl
  ⟨by decide, h.1, h.2.2 (by decide) (by decide)⟩

/-- C9: when the requested 16-bit length exceeds `CHUNK_SIZE`, `read_chunk` consumes the 2 length
bytes and nothing else, sends exactly one negative-acknowledgment, begins no I2C transaction,
sends no checksum or chunk bytes, and leaves the offset as it was. -/
theorem read_chunk_oversized (CHUNK_SIZE : Nat) (D : Device β) (junk : Locals) (s : State β)
    (l0 l1 : Nat) (rest : List Nat) (hin : s.serialIn = l0 :: l1 :: rest)
    (h : CHUNK_SIZE < le16 [l0, l1]) :
    read_chunk CHUNK_SIZE D junk s
        = { s with serialIn := rest,
                   out := s.out ++ [Event.serialRead 2 [l0, l1], Event.nck] }
    ∧ emitted s (read_chunk CHUNK_SIZE D junk s) = [Event.serialRead 2 [l0, l1], Event.nck] := by
  obtain ⟨o, inp, out, ta, tb, rb, dev⟩ := s
  simp only at hin
  subst hin
  simp [read_chunk, readBytes, le16_cons, h, nck, emitted]

/-- C9 at a concrete input, `CHUNK_SIZE = 8`: a requested length 9 is answered with one
negative-acknowledgment; the bytes after the length stay in the input. -/
theorem read_chunk_oversized_witness :
    8 < le16 [9, 0]
    ∧ read_chunk 8 (cannedBus 0 [1, 2, 3]) stale (start () 10 [9, 0, 97, 99, 107])
      = { start () 10 [9, 0, 97, 99, 107] with
          serialIn := [97, 99, 107], out := [Event.serialRead 2 [9, 0], Event.nck] } :=
  ⟨by decide,
   (read_chunk_oversized 8 (cannedBus 0 [1, 2, 3]) stale (start () 10 [9, 0, 97, 99, 107])
     9 0 [97, 99, 107] rfl (by decide)).1⟩

/-- C10: in the loops of both `chip_24AA512_write` and `chip_24AA512_read`, a 3-byte token that
is neither "rst" nor "chk" (zero bytes and shared beginnings included) makes the loop body
consume the 3 bytes, send exactly one negative-acknowledgment, call no chunk handler, leave
the offset as it was, and go on with the next iteration on the rest of the input. -/
theorem unknown_token_nck (CHUNK_SIZE : Nat) (D : Device β) (s : State β)
    (t0 t1 t2 : Nat) (rest : List Nat)
    (hin : s.serialIn = t0 :: t1 :: t2 :: rest)
    (hrst : [t0, t1, t2] ≠ [114, 115, 116])
    (hchk : [t0, t1, t2] ≠ [99, 104, 107]) :
    (∀ cmdBuf junk, write_body CHUNK_SIZE D cmdBuf junk s
      = Step.next { s with serialIn := rest,
                           out := s.out ++ [Event.serialRead 3 [t0, t1, t2], Event.nck] })
    ∧ (∀ cmdBuf junk, read_body CHUNK_SIZE D cmdBuf junk s
      = Step.next { s with serialIn := rest,
                           out := s.out ++ [Event.serialRead 3 [t0, t1, t2], Event.nck] })
    ∧ (∀ cmdBuf junk fuel, write_loop CHUNK_SIZE D cmdBuf junk (fuel + 1) s
      = write_loop CHUNK_SIZE D cmdBuf junk fuel
          { s with serialIn := rest,
                   out := s.out ++ [Event.serialRead 3 [t0, t1, t2], Event.nck] })
    ∧ (∀ cmdBuf junk fuel, read_loop CHUNK_SIZE D cmdBuf junk (fuel + 1) s
      = read_loop CHUNK_SIZE D cmdBuf junk fuel
          { s with serialIn := rest,
                   out := s.out ++ [Event.serialRead 3 [t0, t1, t2], Event.nck] }) := by
  obtain ⟨o, inp, out, ta, tb, rb, dev⟩ := s
  simp only at hin
  subst hin
  have h1 : ¬ strcmp [t0, t1, t2, 0] RST = 0 := fun h =>
    hrst ((strcmp_lit3 t0 t1 t2 114 115 116 (by decide) (by decide) (by decide)).mp h)
  have h2 : ¬ strcmp [t0, t1, t2, 0] CHK = 0 := fun h =>
    hchk ((strcmp_lit3 t0 t1 t2 99 104 107 (by decide) (by decide) (by decide)).mp h)
  have hw : ∀ cmdBuf junk, write_body CHUNK_SIZE D cmdBuf junk
      { addressOffset := o, serialIn := t0 :: t1 :: t2 :: rest, out := out, txAddress := ta,
        txBuffer := tb, rxBuffer := rb, dev := dev }
      = Step.next { addressOffset := o, serialIn := rest,
                    out := out ++ [Event.serialRead 3 [t0, t1, t2], Event.nck], txAddress := ta,
                    txBuffer := tb, rxBuffer := rb, dev := dev } := by
    intro cmdBuf junk
    simp [write_body, readBytes, h1, h2, nck]
  have hr : ∀ cmdBuf junk, read_body CHUNK_SIZE D cmdBuf junk
      { addressOffset := o, serialIn := t0 :: t1 :: t2 :: rest, out := out, txAddress := ta,
        txBuffer := tb, rxBuffer := rb, dev := dev }
      = Step.next { addressOffset := o, serialIn := rest,
                    out := out ++ [Event.serialRead 3 [t0, t1, t2], Event.nck], txAddress := ta,
                    txBuffer := tb, rxBuffer := rb, dev := dev } := by
    intro cmdBuf junk
    simp [read_body, readBytes, h1, h2, nck]
  refine ⟨hw, hr, ?_, ?_⟩
  · intro cmdBuf junk fuel
    simp only [write_loop, hw]
  · intro cmdBuf junk fuel
    simp only [read_loop, hr]

/-- C10 at a concrete input: the token 'r', 's', 0 (a zero byte, and the first two letters of
"rst") is answered with one negative-acknowledgment in both loop bodies; the offset stays
10 and the next token is still in the input. -/
theorem unknown_token_nck_witness :
    write_body 8 (cannedBus 0 []) [0, 0, 116] stale (start () 10 [114, 115, 0, 114, 115, 116])
      = Step.next { start () 10 [114, 115, 0, 114, 115, 116] with
          serialIn := [114, 115, 116], out := [Event.serialRead 3 [114, 115, 0], Event.nck] }
    ∧ read_body 8 (cannedBus 0 []) [0, 0, 116] stale (start () 10 [114, 115, 0, 114, 115, 116])
      = Step.next { start () 10 [114, 115, 0, 114, 115, 116] with
          serialIn := [114, 115, 116], out := [Event.serialRead 3 [114, 115, 0], Event.nck] } :=
  have h := unknown_token_nck 8 (cannedBus 0 []) (start () 10 [114, 115, 0, 114, 115, 116])
    114 115 0 [114, 115, 116] rfl (by decide) (by decide)
  ⟨h.1 [0, 0, 116] stale, h.2.1 [0, 0, 116] stale⟩

/-- C11: in the loops of both `chip_24AA512_write` and `chip_24AA512_read`, with the 3-byte
token `t0 t1 t2` at the head of the serial input: the token "rst" ends the session with
nothing sent and no byte after the token consumed; any other token does not end it, so the
session ends at the first "rst" in command position; and for the token "chk" the loop sends
one acknowledgment and then runs the mode's chunk handler once, on the state in which the
acknowledgment is already in the trace and the bytes after the token are still unread, so
everything the handler consumes or sends comes after that acknowledgment. -/
theorem dispatcher_rst_and_chk (CHUNK_SIZE : Nat) (D : Device β) (s : State β)
    (t0 t1 t2 : Nat) (rest : List Nat) (hin : s.serialIn = t0 :: t1 :: t2 :: rest) :
    ([t0, t1, t2] = [114, 115, 116] → ∀ cmdBuf junk fuel,
      write_loop CHUNK_SIZE D cmdBuf junk (fuel + 1) s
        = Outcome.ended { s with serialIn := rest,
                                 out := s.out ++ [Event.serialRead 3 [114, 115, 116]] }
      ∧ read_loop CHUNK_SIZE D cmdBuf junk (fuel + 1) s
        = Outcome.ended { s with serialIn := rest,
                                 out := s.out ++ [Event.serialRead 3 [114, 115, 116]] })
    ∧ ([t0, t1, t2] ≠ [114, 115, 116] → ∀ cmdBuf junk,
      (∃ s', write_body CHUNK_SIZE D cmdBuf junk s = Step.next s')
      ∧ (∃ s', read_body CHUNK_SIZE D cmdBuf junk s = Step.next s'))
    ∧ ([t0, t1, t2] = [99, 104, 107] → ∀ cmdBuf junk fuel,
      write_loop CHUNK_SIZE D cmdBuf junk (fuel + 1) s
        = write_loop CHUNK_SIZE D cmdBuf junk fuel
            (write_chunk CHUNK_SIZE D (junk fuel)
              { s with serialIn := rest,
                       out := s.out ++ [Event.serialRead 3 [99, 104, 107], Event.ack] })
      ∧ (write_chunk CHUNK_SIZE D (junk fuel)
            { s with serialIn := rest,
                     out := s.out ++ [Event.serialRead 3 [99, 104, 107], Event.ack] }).out
          = s.out ++ [Event.serialRead 3 [99, 104, 107], Event.ack]
            ++ emitted
                { s with serialIn := rest,
                         out := s.out ++ [Event.serialRead 3 [99, 104, 107], Event.ack] }
                (write_chunk CHUNK_SIZE D (junk fuel)
                  { s with serialIn := rest,
                           out := s.out ++ [Event.serialRead 3 [99, 104, 107], Event.ack] })
      ∧ read_loop CHUNK_SIZE D cmdBuf junk (fuel + 1) s
        = read_loop CHUNK_SIZE D cmdBuf junk fuel
            (read_chunk CHUNK_SIZE D (junk fuel)
              { s with serialIn := rest,
                       out := s.out ++ [Event.serialRead 3 [99, 104, 107], Event.ack] })
      ∧ (read_chunk CHUNK_SIZE D (junk fuel)
            { s with serialIn := rest,
                     out := s.out ++ [Event.serialRead 3 [99, 104, 107], Event.ack] }).out
          = s.out ++ [Event.serialRead 3 [99, 104, 107], Event.ack]
            ++ emitted
                { s with serialIn := rest,
                         out := s.out ++ [Event.serialRead 3 [99, 104, 107], Event.ack] }
                (read_chunk CHUNK_SIZE D (junk fuel)
                  { s with serialIn := rest,
                           out := s.out ++ [Event.serialRead 3 [99, 104, 107], Event.ack] })) := by
  obtain ⟨o, inp, out, ta, tb, rb, dev⟩ := s
  simp only at hin
  subst hin
  have hrst : strcmp [t0, t1, t2, 0] RST = 0 ↔ [t0, t1, t2] = [114, 115, 116] :=
    strcmp_lit3 t0 t1 t2 114 115 116 (by decide) (by decide) (by decide)
  have hchk : strcmp [t0, t1, t2, 0] CHK = 0 ↔ [t0, t1, t2] = [99, 104, 107] :=
    strcmp_lit3 t0 t1 t2 99 104 107 (by decide) (by decide) (by decide)
  refine ⟨?_, ?_, ?_⟩
  · intro h cmdBuf junk fuel
    have h1 := hrst.mpr h
    simp only [List.cons.injEq, and_true] at h
    obtain ⟨rfl, rfl, rfl⟩ := h
    simp [write_loop, read_loop, write_body, read_body, readBytes, h1]
  · intro h cmdBuf junk
    have h1 : ¬ strcmp [t0, t1, t2, 0] RST = 0 := fun h' => h (hrst.mp h')
    constructor
    · simp only [write_body]
      split_ifs <;> simp_all [readBytes]
    · simp only [read_body]
      split_ifs <;> simp_all [readBytes]
  · intro h cmdBuf junk fuel
    have h2 := hchk.mpr h
    simp only [List.cons.injEq, and_true] at h
    obtain ⟨rfl, rfl, rfl⟩ := h
    have h1 : ¬ strcmp [99, 104, 107, 0] RST = 0 := by decide
    refine ⟨?_, ?_, ?_, ?_⟩
    · simp [write_loop, write_body, readBytes, h1, h2, ack]
    · rw [write_chunk_out]
    · simp [read_loop, read_body, readBytes, h1, h2, ack]
    · rw [read_chunk_out]

/-- C11 at concrete inputs: "rst" followed by one more byte ends the write loop with that byte
unread and nothing sent; "chk" does not end it and hands the bytes after it to `write_chunk`
after one acknowledgment. -/
theorem dispatcher_rst_and_chk_witness :
    write_loop 8 (cannedBus 0 []) (fun _ => [0, 0, 0]) (fun _ => stale) 1
        (start () 10 [114, 115, 116, 99])
      = Outcome.ended { start () 10 [114, 115, 116, 99] with
          serialIn := [99], out := [Event.serialRead 3 [114, 115, 116]] }
    ∧ (∃ s', write_body 8 (cannedBus 0 []) [0, 0, 0] stale (start () 10 [99, 104, 107, 9, 0])
        = Step.next s')
    ∧ write_loop 8 (cannedBus 0 []) (fun _ => [0, 0, 0]) (fun _ => stale) 1
        (start () 10 [99, 104, 107, 9, 0])
      = write_loop 8 (cannedBus 0 []) (fun _ => [0, 0, 0]) (fun _ => stale) 0
          (write_chunk 8 (cannedBus 0 []) stale
            { start () 10 [99, 104, 107, 9, 0] with
              serialIn := [9, 0],
              out := [Event.serialRead 3 [99, 104, 107], Event.ack] }) :=
  ⟨((dispatcher_rst_and_chk 8 (cannedBus 0 []) (start () 10 [114, 115, 116, 99])
      114 115 116 [99] rfl).1 rfl (fun _ => [0, 0, 0]) (fun _ => stale) 0).1,
   ((dispatcher_rst_and_chk 8 (cannedBus 0 []) (start () 10 [99, 104, 107, 9, 0])
      99 104 107 [9, 0] rfl).2.1 (by decide) [0, 0, 0] stale).1,
   ((dispatcher_rst_and_chk 8 (cannedBus 0 []) (start () 10 [99, 104, 107, 9, 0])
      99 104 107 [9, 0] rfl).2.2 rfl (fun _ => [0, 0, 0]) (fun _ => stale) 0).1⟩

/-- The session offset invariant as far as the code keeps it. Whatever offset an earlier
session left, both `chip_24AA512_write` and `chip_24AA512_read` have offset 0 when the first
command is read. After any number `fuel` of commands the offset of a write session is the
sum, modulo `2^16`, of the lengths of the chunks whose bus write was answered with status 0
(which is reached only after the checksum matched), in every run. The offset of a read
session is the sum, modulo `2^16`, of the requested lengths of the chunks whose address-set
succeeded and to which the host replied "ack", in the runs in which each 3-byte read
obtained its 3 bytes; `read_session_stale_ack` shows a run outside them. -/
theorem session_offset_invariant (CHUNK_SIZE : Nat) (D : Device β) (cmdBuf : Nat → List Nat)
    (junk : Nat → Locals) (fuel : Nat) (s : State β) :
    chip_24AA512_write CHUNK_SIZE D cmdBuf junk 0 s
      = Outcome.running { s with addressOffset := 0, out := s.out ++ [Event.wireBegin] }
    ∧ chip_24AA512_read CHUNK_SIZE D cmdBuf junk 0 s
      = Outcome.running { s with addressOffset := 0, out := s.out ++ [Event.wireBegin] }
    ∧ (chip_24AA512_write CHUNK_SIZE D cmdBuf junk fuel s).state.addressOffset
        = writtenBytes
            (emitted s (chip_24AA512_write CHUNK_SIZE D cmdBuf junk fuel s).state) % 65536
    ∧ ((emitted s (chip_24AA512_read CHUNK_SIZE D cmdBuf junk fuel s).state).all
          Event.fullToken = true →
        (chip_24AA512_read CHUNK_SIZE D cmdBuf junk fuel s).state.addressOffset
          = confirmedBytes
              (emitted s (chip_24AA512_read CHUNK_SIZE D cmdBuf junk fuel s).state) % 65536) := by
  refine ⟨by simp [chip_24AA512_write, write_loop, wireBegin],
    by simp [chip_24AA512_read, read_loop, wireBegin], ?_, ?_⟩
  · obtain ⟨es, h1, h2⟩ := write_loop_offset CHUNK_SIZE D cmdBuf junk fuel
      (wireBegin { s with addressOffset := 0 }) (by simp [wireBegin])
    have he := emitted_of_out s
      (chip_24AA512_write CHUNK_SIZE D cmdBuf junk fuel s).state (Event.wireBegin :: es)
      (by simp only [chip_24AA512_write]; rw [h1]; simp [wireBegin])
    rw [he]
    simp only [chip_24AA512_write]
    rw [h2]
    simp [wireBegin, writtenBytes, Event.written]
  · obtain ⟨es, h1, h2⟩ := read_loop_offset CHUNK_SIZE D cmdBuf junk fuel
      (wireBegin { s with addressOffset := 0 }) (by simp [wireBegin])
    have he := emitted_of_out s
      (chip_24AA512_read CHUNK_SIZE D cmdBuf junk fuel s).state (Event.wireBegin :: es)
      (by simp only [chip_24AA512_read]; rw [h1]; simp [wireBegin])
    rw [he]
    intro hfull
    simp only [chip_24AA512_read]
    rw [h2 (by simpa [Event.fullToken] using hfull)]
    simp [wireBegin, confirmedBytes, confirmedAt]

/-- The invariant at concrete sessions, both entered with offset 999 left from before: the
write session `writeSession` completes chunks of 3 and 1 bytes and ends at offset 4; the read
session `readSession`, in which every 3-byte read is complete, has chunks of 3 and 1 bytes
confirmed and ends at offset 4. -/
theorem session_offset_invariant_witness :
    (chip_24AA512_write 8 (cannedBus 0 []) (fun _ => [0, 0, 0]) (fun _ => stale) 10
        (start () 999 writeSession)).state.addressOffset = 4
    ∧ (emitted (start () 999 readSession)
        (chip_24AA512_read 8 (cannedBus 0 [1, 2, 3]) (fun _ => [0, 0, 0]) (fun _ => stale) 10
          (start () 999 readSession)).state).all Event.fullToken = true
    ∧ (chip_24AA512_read 8 (cannedBus 0 [1, 2, 3]) (fun _ => [0, 0, 0]) (fun _ => stale) 10
        (start () 999 readSession)).state.addressOffset = 4 :=
  ⟨(session_offset_invariant 8 (cannedBus 0 []) (fun _ => [0, 0, 0]) (fun _ => stale) 10
      (start () 999 writeSession)).2.2.1.trans (by decide),
   by decide,
   ((session_offset_invariant 8 (cannedBus 0 [1, 2, 3]) (fun _ => [0, 0, 0]) (fun _ => stale) 10
      (start () 999 readSession)).2.2.2 (by decide)).trans (by decide)⟩

/-- C12, the code when the host's reply does not come: in a read session the host confirms a
first chunk of 3 bytes with "ack" and sends nothing after the data of a second chunk of 3
bytes. `Serial.readBytes` then reads no byte and leaves `buf` as it was; with "ack" in it
from before, `strcmp` finds "ack" and `read_chunk` advances the offset a second time. The
session stands at offset 6, the host has confirmed 3 bytes, and the last action is the
3-byte read that obtained nothing. -/
theorem read_session_stale_ack :
    (chip_24AA512_read 8 (cannedBus 0 [1, 2, 3]) (fun _ => [0, 0, 0]) (fun _ => staleAck) 10
        (start () 0 silentSession)).state.addressOffset = 6
    ∧ confirmedBytes (emitted (start () 0 silentSession)
        (chip_24AA512_read 8 (cannedBus 0 [1, 2, 3]) (fun _ => [0, 0, 0]) (fun _ => staleAck) 10
          (start () 0 silentSession)).state) = 3
    ∧ (emitted (start () 0 silentSession)
        (chip_24AA512_read 8 (cannedBus 0 [1, 2, 3]) (fun _ => [0, 0, 0]) (fun _ => staleAck) 10
          (start () 0 silentSession)).state).getLast? = some (Event.serialRead 3 []) := by
  decide

/-- C13: for every byte sequence `data` and every `length`, `simpleChecksum(data, length)` is
the sum of the first `length` byte values modulo 256, and the width of the `unsigned int`
accumulator does not matter: the result is the same when the running sum wraps modulo
`2^16`, modulo `2^32`, or never wraps. -/
theorem simpleChecksum_sum_mod_256 (data : List Nat) (length : Nat) :
    simpleChecksum data length = (data.take length).sum % 256
    ∧ simpleChecksumW (2 ^ 16) data length = (data.take length).sum % 256
    ∧ simpleChecksumW (2 ^ 32) data length = (data.take length).sum % 256
    ∧ simpleChecksumExact data length = (data.take length).sum % 256 :=
  ⟨simpleChecksumW_take _ (by decide) data length, simpleChecksumW_take _ (by decide) data length,
   simpleChecksumW_take _ (by decide) data length, simpleChecksumExact_take data length⟩

/-- C14: when `write_chunk` has received a full payload `P` of declared length
`L ≤ CHUNK_SIZE` and the 4 bytes `c` of the remote checksum, it goes on to the bus write
(`Wire.beginTransmission`) if and only if the 32-bit value of `c` equals the sum of the bytes
of `P` modulo 256; every value of 256 or more is answered with a negative-acknowledgment and
no bus transaction, whatever its low 8 bits are. -/
theorem write_chunk_checksum_gate (CHUNK_SIZE : Nat) (D : Device β) (junk : Locals)
    (s : State β) (l0 l1 : Nat) (P c rest : List Nat)
    (hin : s.serialIn = l0 :: l1 :: (P ++ (c ++ rest)))
    (hP : P.length = le16 [l0, l1])
    (hL : le16 [l0, l1] ≤ CHUNK_SIZE)
    (hc : c.length = 4) :
    (Event.beginTransmission 0x50 ∈ emitted s (write_chunk CHUNK_SIZE D junk s)
      ↔ le32 c = P.sum % 256)
    ∧ (256 ≤ le32 c →
        emitted s (write_chunk CHUNK_SIZE D junk s) =
          [Event.serialRead 2 [l0, l1], Event.ack, Event.serialRead P.length P, Event.ack,
           Event.serialRead 4 c, Event.nck]) := by
  have h16 : ∀ t, le16 (l0 :: l1 :: t) = P.length := fun t => by rw [le16_cons, hP]
  rw [← hP] at hL
  have hsum := simpleChecksum_eq_sum P
  have hlt : P.sum % 256 < 256 := Nat.mod_lt _ (by decide)
  obtain ⟨o, inp, out, ta, tb, rb, dev⟩ := s
  simp only at hin
  subst hin
  by_cases hr : le32 c = P.sum % 256
  · have hge : ¬ 256 ≤ le32 c := by omega
    simp only [hr, hge, false_implies, and_true, iff_true]
    simp [write_chunk, readBytes, h16, Nat.not_lt.mpr hL, le32_append, ack, nck,
      simpleChecksum_append, hsum, hr, hc, delay, beginTransmission, wireWrite,
      endTransmission, emitted]
    split <;> simp [hlt]
  · simp [write_chunk, readBytes, h16, Nat.not_lt.mpr hL, le32_append, ack, nck,
      simpleChecksum_append, hsum, hr, hc, emitted]

/-- C14 at a concrete input: for the payload `[1, 2, 3]` the remote checksum 262, whose low
byte is the local checksum 6, is answered with a negative-acknowledgment and no bus write. -/
theorem write_chunk_checksum_gate_witness :
    256 ≤ le32 [6, 1, 0, 0]
    ∧ emitted (start () 0 [3, 0, 1, 2, 3, 6, 1, 0, 0])
        (write_chunk 8 (cannedBus 0 []) stale (start () 0 [3, 0, 1, 2, 3, 6, 1, 0, 0]))
      = [Event.serialRead 2 [3, 0], Event.ack, Event.serialRead 3 [1, 2, 3], Event.ack,
         Event.serialRead 4 [6, 1, 0, 0], Event.nck]
    ∧ (Event.beginTransmission 0x50 ∈ emitted (start () 0 [3, 0, 1, 2, 3, 6, 1, 0, 0])
        (write_chunk 8 (cannedBus 0 []) stale (start () 0 [3, 0, 1, 2, 3, 6, 1, 0, 0]))
      ↔ le32 [6, 1, 0, 0] = [1, 2, 3].sum % 256) :=
  have h := write_chunk_checksum_gate 8 (cannedBus 0 []) stale
    (start () 0 [3, 0, 1, 2, 3, 6, 1, 0, 0]) 3 0 [1, 2, 3] [6, 1, 0, 0] []
    rfl (by decide) (by decide) rfl
  ⟨by decide, h.2 (by decide), h.1⟩

/-- C15: for every offset `o` (a `uint16_t`) and every accepted payload `P`, `write_chunk`
issues a single I2C write transaction, addressed to device 0x50 and carrying exactly
`[o / 256, o % 256] ++ P` with `o` the offset before the advance; the address-set transaction
of `read_chunk` is the only transmission of the call, is addressed to 0x50 and carries exactly
`[o / 256, o % 256]`. The two address bytes are big-endian: the first times 256 plus the
second is `o`. -/
theorem bus_transactions_addressed (CHUNK_SIZE : Nat) (D : Device β) (junk : Locals)
    (s : State β) (l0 l1 : Nat) (ho : s.addressOffset < 65536) :
    (∀ P c rest, s.serialIn = l0 :: l1 :: (P ++ (c ++ rest)) → P.length = le16 [l0, l1] →
      le16 [l0, l1] ≤ CHUNK_SIZE → c.length = 4 → le32 c = simpleChecksum P P.length →
        (emitted s (write_chunk CHUNK_SIZE D junk s)).filter Event.isEnd
          = [Event.endTransmission 0x50
              ([s.addressOffset / 256, s.addressOffset % 256] ++ P)
              (D.transmit s.dev 0x50
                ([s.addressOffset / 256, s.addressOffset % 256] ++ P)).1])
    ∧ (∀ rest, s.serialIn = l0 :: l1 :: rest → le16 [l0, l1] ≤ CHUNK_SIZE →
        (emitted s (read_chunk CHUNK_SIZE D junk s)).filter Event.isEnd
          = [Event.endTransmission 0x50 [s.addressOffset / 256, s.addressOffset % 256]
              (D.transmit s.dev 0x50 [s.addressOffset / 256, s.addressOffset % 256]).1])
    ∧ s.addressOffset / 256 * 256 + s.addressOffset % 256 = s.addressOffset := by
  obtain ⟨o, inp, out, ta, tb, rb, dev⟩ := s
  simp only at ho
  have hhi : o / 256 % 256 = o / 256 := Nat.mod_eq_of_lt (by omega)
  refine ⟨?_, ?_, ?_⟩
  · intro P c rest hin hP hL hc hsum
    have h16 : ∀ t, le16 (l0 :: l1 :: t) = P.length := fun t => by rw [le16_cons, hP]
    rw [← hP] at hL
    simp only at hin
    subst hin
    simp [write_chunk, readBytes, h16, Nat.not_lt.mpr hL, le32_append, ack, nck,
      simpleChecksum_append, hsum, hc, delay, beginTransmission, wireWrite, endTransmission,
      emitted, hhi]
    split <;> simp [Event.isEnd, List.filter]
  · intro rest hin hL
    simp only at hin
    subst hin
    simp [read_chunk, readBytes, le16_cons, Nat.not_lt.mpr hL, ack, nck, delay,
      beginTransmission, wireWrite, endTransmission, requestFrom, serialWrite, emitted, hhi]
    split_ifs <;> simp [Event.isEnd, List.filter]
  · simp only
    omega

/-- C15 at concrete inputs, offset `0x1234`: the write of `[1, 2, 3]` is the one transmission
`[0x12, 0x34, 1, 2, 3]` to 0x50, the address-set of a read is the one transmission
`[0x12, 0x34]` to 0x50. -/
theorem bus_transactions_addressed_witness :
    (emitted (start () 4660 [3, 0, 1, 2, 3, 6, 0, 0, 0])
        (write_chunk 8 (cannedBus 0 []) stale
          (start () 4660 [3, 0, 1, 2, 3, 6, 0, 0, 0]))).filter Event.isEnd
      = [Event.endTransmission 0x50 [18, 52, 1, 2, 3] 0]
    ∧ (emitted (start () 4660 [3, 0, 97, 99, 107])
        (read_chunk 8 (cannedBus 0 [1, 2, 3]) stale
          (start () 4660 [3, 0, 97, 99, 107]))).filter Event.isEnd
      = [Event.endTransmission 0x50 [18, 52] 0]
    ∧ 18 * 256 + 52 = 4660 :=
  ⟨(bus_transactions_addressed 8 (cannedBus 0 []) stale
      (start () 4660 [3, 0, 1, 2, 3, 6, 0, 0, 0]) 3 0 (by decide)).1
      [1, 2, 3] [6, 0, 0, 0] [] rfl (by decide) (by decide) rfl (by decide),
   (bus_transactions_addressed 8 (cannedBus 0 [1, 2, 3]) stale
      (start () 4660 [3, 0, 97, 99, 107]) 3 0 (by decide)).2.1
      [97, 99, 107] rfl (by decide),
   by decide⟩

/-- C16: for every input to `write_chunk` whose 2 length bytes declare `L`, the flow-control
signals the handler sends are exactly one of five sequences, each fixed by the input:
`[nck]` when `L > CHUNK_SIZE`; `[ack, nck]` when fewer than `L` payload bytes arrive;
`[ack, ack, nck]` when the payload `P` arrives in full and the 32-bit remote checksum differs
from `simpleChecksum P`; `[ack, ack, ack, nck]` when the checksum matches and the bus answers
the write with a non-zero status; `[ack, ack, ack, ack]` when the checksum matches and the bus
answers 0. The offset afterwards is `(o + L) % 2^16` in the last case and the old offset in
every other case: it is never advanced by a part of `L`, and the advance is made exactly when
the final signal is an acknowledgment. -/
theorem write_chunk_signals (CHUNK_SIZE : Nat) (D : Device β) (junk : Locals) (s : State β)
    (l0 l1 : Nat) (rest : List Nat) (hin : s.serialIn = l0 :: l1 :: rest) :
    ((CHUNK_SIZE < le16 [l0, l1]
      ∧ signals (emitted s (write_chunk CHUNK_SIZE D junk s)) = [Event.nck]
      ∧ (write_chunk CHUNK_SIZE D junk s).addressOffset = s.addressOffset)
    ∨ (le16 [l0, l1] ≤ CHUNK_SIZE ∧ rest.length < le16 [l0, l1]
      ∧ signals (emitted s (write_chunk CHUNK_SIZE D junk s)) = [Event.ack, Event.nck]
      ∧ (write_chunk CHUNK_SIZE D junk s).addressOffset = s.addressOffset)
    ∨ (le16 [l0, l1] ≤ CHUNK_SIZE ∧ le16 [l0, l1] ≤ rest.length
      ∧ (emitted s (write_chunk CHUNK_SIZE D junk s)).countP Event.isBegin = 0
      ∧ signals (emitted s (write_chunk CHUNK_SIZE D junk s))
          = [Event.ack, Event.ack, Event.nck]
      ∧ (write_chunk CHUNK_SIZE D junk s).addressOffset = s.addressOffset)
    ∨ (le16 [l0, l1] ≤ CHUNK_SIZE ∧ le16 [l0, l1] ≤ rest.length
      ∧ (∃ a d st, st ≠ 0
          ∧ Event.endTransmission a d st ∈ emitted s (write_chunk CHUNK_SIZE D junk s))
      ∧ signals (emitted s (write_chunk CHUNK_SIZE D junk s))
          = [Event.ack, Event.ack, Event.ack, Event.nck]
      ∧ (write_chunk CHUNK_SIZE D junk s).addressOffset = s.addressOffset)
    ∨ (le16 [l0, l1] ≤ CHUNK_SIZE ∧ le16 [l0, l1] ≤ rest.length
      ∧ (∃ a d, Event.endTransmission a d 0 ∈ emitted s (write_chunk CHUNK_SIZE D junk s))
      ∧ signals (emitted s (write_chunk CHUNK_SIZE D junk s))
          = [Event.ack, Event.ack, Event.ack, Event.ack]
      ∧ (write_chunk CHUNK_SIZE D junk s).addressOffset
          = (s.addressOffset + le16 [l0, l1]) % 65536))
    ∧ (CHUNK_SIZE < le16 [l0, l1] →
        signals (emitted s (write_chunk CHUNK_SIZE D junk s)) = [Event.nck]
        ∧ (write_chunk CHUNK_SIZE D junk s).addressOffset = s.addressOffset)
    ∧ (le16 [l0, l1] ≤ CHUNK_SIZE → rest.length < le16 [l0, l1] →
        signals (emitted s (write_chunk CHUNK_SIZE D junk s)) = [Event.ack, Event.nck]
        ∧ (write_chunk CHUNK_SIZE D junk s).addressOffset = s.addressOffset)
    ∧ (∀ P c rest', rest = P ++ (c ++ rest') → P.length = le16 [l0, l1] →
        le16 [l0, l1] ≤ CHUNK_SIZE → c.length = 4 →
        (le32 c ≠ simpleChecksum P P.length →
          signals (emitted s (write_chunk CHUNK_SIZE D junk s))
            = [Event.ack, Event.ack, Event.nck]
          ∧ (write_chunk CHUNK_SIZE D junk s).addressOffset = s.addressOffset)
        ∧ (le32 c = simpleChecksum P P.length →
            (D.transmit s.dev 0x50
              (s.addressOffset / 256 % 256 :: s.addressOffset % 256 :: P)).1 ≠ 0 →
          signals (emitted s (write_chunk CHUNK_SIZE D junk s))
            = [Event.ack, Event.ack, Event.ack, Event.nck]
          ∧ (write_chunk CHUNK_SIZE D junk s).addressOffset = s.addressOffset)
        ∧ (le32 c = simpleChecksum P P.length →
            (D.transmit s.dev 0x50
              (s.addressOffset / 256 % 256 :: s.addressOffset % 256 :: P)).1 = 0 →
          signals (emitted s (write_chunk CHUNK_SIZE D junk s))
            = [Event.ack, Event.ack, Event.ack, Event.ack]
          ∧ (write_chunk CHUNK_SIZE D junk s).addressOffset
              = (s.addressOffset + le16 [l0, l1]) % 65536))
    ∧ (0 < le16 [l0, l1] → s.addressOffset < 65536 →
        ((write_chunk CHUNK_SIZE D junk s).addressOffset ≠ s.addressOffset
          ↔ (signals (emitted s (write_chunk CHUNK_SIZE D junk s))).getLast?
              = some Event.ack)) := by
  have hlt : le16 [l0, l1] < 65536 := by
    simp only [le16, List.getD_cons_zero, List.getD_cons_succ]
    omega
  obtain ⟨o, inp, out, ta, tb, rb, dev⟩ := s
  simp only at hin
  subst hin
  generalize hLdef : le16 [l0, l1] = L at hlt ⊢
  have key : ∀ {A B1 B2 B3 C : Prop}, A → B1 → B2 → B3 → (A → C) → A ∧ B1 ∧ B2 ∧ B3 ∧ C :=
    fun a b1 b2 b3 f => ⟨a, b1, b2, b3, f a⟩
  apply key
  · by_cases h1 : CHUNK_SIZE < L
    · left
      simp [write_chunk, readBytes, le16_cons, hLdef, h1, nck, emitted, signals, Event.isSignal]
    · right
      have h1' : L ≤ CHUNK_SIZE := by omega
      by_cases h2 : rest.length < L
      · left
        have : ¬ (min L rest.length = L) := by omega
        simp [write_chunk, readBytes, le16_cons, hLdef, h1, h1', h2, this, ack, nck, emitted,
          signals, Event.isSignal]
      · right
        have h2' : L ≤ rest.length := by omega
        have : min L rest.length = L := by omega
        simp only [write_chunk]
        split_ifs <;>
          simp_all [emitted, readBytes, le16_cons, ack, nck, delay, beginTransmission, wireWrite,
            endTransmission, signals, Event.isSignal, Event.isBegin] <;>
          first
            | omega
            | exact ⟨_, _, _, by assumption, rfl, rfl, rfl⟩
  · intro h1
    simp [write_chunk, readBytes, le16_cons, hLdef, h1, nck, emitted, signals, Event.isSignal]
  · intro h1 h2
    have h1' : ¬ CHUNK_SIZE < L := by omega
    have : ¬ (min L rest.length = L) := by omega
    simp [write_chunk, readBytes, le16_cons, hLdef, h1, h1', h2, this, ack, nck, emitted,
      signals, Event.isSignal]
  · intro P c rest' hrest hP hL hc
    subst hrest
    subst hP
    have h1' : ¬ CHUNK_SIZE < P.length := by omega
    refine ⟨?_, ?_, ?_⟩
    · intro hne
      simp [write_chunk, readBytes, le16_cons, hLdef, h1', le32_append, ack, nck,
        simpleChecksum_append, hne, hc, emitted, signals, Event.isSignal]
    · intro heq hst
      simp only at hst
      simp [write_chunk, readBytes, le16_cons, hLdef, h1', le32_append, ack, nck,
        simpleChecksum_append, heq, hc, delay, beginTransmission, wireWrite, endTransmission,
        hst, emitted, signals, Event.isSignal]
    · intro heq hst
      simp only at hst
      simp [write_chunk, readBytes, le16_cons, hLdef, h1', le32_append, ack, nck,
        simpleChecksum_append, heq, hc, delay, beginTransmission, wireWrite, endTransmission,
        hst, emitted, signals, Event.isSignal]
  · intro h h0 ho
    simp only at ho
    rcases h with ⟨_, hs, hoff⟩ | ⟨_, _, hs, hoff⟩ | ⟨_, _, _, hs, hoff⟩ | ⟨_, _, _, hs, hoff⟩
      | ⟨_, _, _, hs, hoff⟩ <;>
    · rw [hs, hoff]
      simp
      try omega

/-- C16 at concrete inputs, `CHUNK_SIZE = 8` and offset 10: 3 bytes declared and 2 arriving
give `[ack, nck]`; the payload `[1, 2, 3]` with remote checksum 7 gives `[ack, ack, nck]`;
with the right checksum 6 and bus status 2 it gives `[ack, ack, ack, nck]`; in all three the
offset stays 10. With checksum 6 and bus status 0 it gives four acknowledgments and offset
13. -/
theorem write_chunk_signals_witness :
    (signals (emitted (start () 10 [3, 0, 1, 2])
        (write_chunk 8 (cannedBus 0 []) stale (start () 10 [3, 0, 1, 2])))
      = [Event.ack, Event.nck]
      ∧ (write_chunk 8 (cannedBus 0 []) stale (start () 10 [3, 0, 1, 2])).addressOffset = 10)
    ∧ (signals (emitted (start () 10 [3, 0, 1, 2, 3, 7, 0, 0, 0])
        (write_chunk 8 (cannedBus 0 []) stale (start () 10 [3, 0, 1, 2, 3, 7, 0, 0, 0])))
      = [Event.ack, Event.ack, Event.nck]
      ∧ (write_chunk 8 (cannedBus 0 []) stale
          (start () 10 [3, 0, 1, 2, 3, 7, 0, 0, 0])).addressOffset = 10)
    ∧ (signals (emitted (start () 10 [3, 0, 1, 2, 3, 6, 0, 0, 0])
        (write_chunk 8 (cannedBus 2 []) stale (start () 10 [3, 0, 1, 2, 3, 6, 0, 0, 0])))
      = [Event.ack, Event.ack, Event.ack, Event.nck]
      ∧ (write_chunk 8 (cannedBus 2 []) stale
          (start () 10 [3, 0, 1, 2, 3, 6, 0, 0, 0])).addressOffset = 10)
    ∧ (signals (emitted (start () 10 [3, 0, 1, 2, 3, 6, 0, 0, 0])
        (write_chunk 8 (cannedBus 0 []) stale (start () 10 [3, 0, 1, 2, 3, 6, 0, 0, 0])))
      = [Event.ack, Event.ack, Event.ack, Event.ack]
      ∧ (write_chunk 8 (cannedBus 0 []) stale
          (start () 10 [3, 0, 1, 2, 3, 6, 0, 0, 0])).addressOffset = 13)
    ∧ ((write_chunk 8 (cannedBus 0 []) stale
          (start () 10 [3, 0, 1, 2, 3, 6, 0, 0, 0])).addressOffset ≠ 10
      ↔ (signals (emitted (start () 10 [3, 0, 1, 2, 3, 6, 0, 0, 0])
          (write_chunk 8 (cannedBus 0 []) stale
            (start () 10 [3, 0, 1, 2, 3, 6, 0, 0, 0])))).getLast? = some Event.ack) :=
  ⟨(write_chunk_signals 8 (cannedBus 0 []) stale (start () 10 [3, 0, 1, 2])
      3 0 [1, 2] rfl).2.2.1 (by decide) (by decide),
   ((write_chunk_signals 8 (cannedBus 0 []) stale (start () 10 [3, 0, 1, 2, 3, 7, 0, 0, 0])
      3 0 [1, 2, 3, 7, 0, 0, 0] rfl).2.2.2.1 [1, 2, 3] [7, 0, 0, 0] [] rfl (by decide)
      (by decide) rfl).1 (by decide),
   ((write_chunk_signals 8 (cannedBus 2 []) stale (start () 10 [3, 0, 1, 2, 3, 6, 0, 0, 0])
      3 0 [1, 2, 3, 6, 0, 0, 0] rfl).2.2.2.1 [1, 2, 3] [6, 0, 0, 0] [] rfl (by decide)
      (by decide) rfl).2.1 (by decide) (by decide),
   ((write_chunk_signals 8 (cannedBus 0 []) stale (start () 10 [3, 0, 1, 2, 3, 6, 0, 0, 0])
      3 0 [1, 2, 3, 6, 0, 0, 0] rfl).2.2.2.1 [1, 2, 3] [6, 0, 0, 0] [] rfl (by decide)
      (by decide) rfl).2.2 (by decide) (by decide),
   (write_chunk_signals 8 (cannedBus 0 []) stale (start () 10 [3, 0, 1, 2, 3, 6, 0, 0, 0])
      3 0 [1, 2, 3, 6, 0, 0, 0] rfl).2.2.2.2 (by decide) (by decide)⟩

/-- C17: when `read_chunk` is asked for `L ≤ CHUNK_SIZE` bytes, the address-set succeeds and the
bus makes the `k ≤ L` bytes `avail` available, what is sent to the host after the
acknowledgment is exactly `4 + L` bytes: a 4-byte checksum field whose value is below 256 and
is the checksum over all `L` bytes of the chunk buffer, then `L` payload bytes, of which the
first `k` are the bus bytes in the order read and the other `L - k` are what the chunk buffer
held before. The payload length is `L`, not `k`. -/
theorem read_chunk_sends_requested_length (CHUNK_SIZE : Nat) (D : Device β) (junk : Locals)
    (s : State β) (l0 l1 : Nat) (rest avail : List Nat)
    (hin : s.serialIn = l0 :: l1 :: rest)
    (hL : le16 [l0, l1] ≤ CHUNK_SIZE)
    (hbus : (D.transmit s.dev 0x50 [s.addressOffset / 256 % 256, s.addressOffset % 256]).1 = 0)
    (hbuf : junk.chunk.length = CHUNK_SIZE)
    (havail : (D.request
      (D.transmit s.dev 0x50 [s.addressOffset / 256 % 256, s.addressOffset % 256]).2
      0x50 (le16 [l0, l1])).1 = avail)
    (hk : avail.length ≤ le16 [l0, l1]) :
    emitted s (read_chunk CHUNK_SIZE D junk s) =
      [Event.serialRead 2 [l0, l1], Event.ack, Event.beginTransmission 0x50,
       Event.wireWrite [s.addressOffset / 256 % 256], Event.wireWrite [s.addressOffset % 256],
       Event.endTransmission 0x50 [s.addressOffset / 256 % 256, s.addressOffset % 256] 0,
       Event.delay 5, Event.requestFrom 0x50 (le16 [l0, l1]),
       Event.serialWrite (bytes32 (simpleChecksum
         (avail ++ (junk.chunk.drop avail.length).take (le16 [l0, l1] - avail.length))
         (le16 [l0, l1]))),
       Event.serialWrite
         (avail ++ (junk.chunk.drop avail.length).take (le16 [l0, l1] - avail.length)),
       Event.serialRead 3 (rest.take 3)]
    ∧ (bytes32 (simpleChecksum
         (avail ++ (junk.chunk.drop avail.length).take (le16 [l0, l1] - avail.length))
         (le16 [l0, l1]))).length = 4
    ∧ le32 (bytes32 (simpleChecksum
         (avail ++ (junk.chunk.drop avail.length).take (le16 [l0, l1] - avail.length))
         (le16 [l0, l1]))) < 256
    ∧ (avail ++ (junk.chunk.drop avail.length).take (le16 [l0, l1] - avail.length)).length
        = le16 [l0, l1]
    ∧ (avail ++ (junk.chunk.drop avail.length).take (le16 [l0, l1] - avail.length)).take
        avail.length = avail := by
  obtain ⟨o, inp, out, ta, tb, rb, dev⟩ := s
  simp only at hin hbus havail
  subst hin
  generalize hLdef : le16 [l0, l1] = L at *
  have hloop : (wireReadLoop L avail 0 junk.chunk).1 = avail ++ junk.chunk.drop avail.length := by
    rw [wireReadLoop_zero _ _ _ (by simp; omega)]
    simp [List.take_of_length_le hk]
  have htake : (avail ++ junk.chunk.drop avail.length).take L
      = avail ++ (junk.chunk.drop avail.length).take (L - avail.length) := by
    rw [List.take_append_eq_append_take, List.take_of_length_le hk]
  have hcs : simpleChecksum (avail ++ junk.chunk.drop avail.length) L
      = simpleChecksum (avail ++ (junk.chunk.drop avail.length).take (L - avail.length)) L := by
    apply simpleChecksum_congr
    intro i hi
    rw [← htake]
    simp [List.getD_eq_getElem?_getD, List.getElem?_take, hi]
  refine ⟨?_, rfl, ?_, ?_, ?_⟩
  · simp [read_chunk, readBytes, le16_cons, hLdef, Nat.not_lt.mpr hL, ack, nck, delay,
      beginTransmission, wireWrite, endTransmission, requestFrom, serialWrite, hbus, havail,
      hloop, htake, hcs, emitted]
    split <;> simp
  · rw [le32_bytes32 _ (lt_trans (simpleChecksum_lt _ _) (by decide))]
    exact simpleChecksum_lt _ _
  · simp
    omega
  · simp

/-- C17 at a concrete input: 2 bytes are requested, the bus makes the one byte 5 available and
the chunk buffer held 7s; the host gets the checksum field `[12, 0, 0, 0]` and the 2 payload
bytes `[5, 7]`. -/
theorem read_chunk_sends_requested_length_witness :
    emitted (start () 0 [2, 0, 97, 99, 107])
        (read_chunk 8 (cannedBus 0 [5]) stale (start () 0 [2, 0, 97, 99, 107]))
      = [Event.serialRead 2 [2, 0], Event.ack, Event.beginTransmission 0x50,
         Event.wireWrite [0], Event.wireWrite [0], Event.endTransmission 0x50 [0, 0] 0,
         Event.delay 5, Event.requestFrom 0x50 2,
         Event.serialWrite [12, 0, 0, 0], Event.serialWrite [5, 7],
         Event.serialRead 3 [97, 99, 107]]
    ∧ le32 [12, 0, 0, 0] < 256
    ∧ [5, 7].length = 2 :=
  have h := read_chunk_sends_requested_length 8 (cannedBus 0 [5]) stale
    (start () 0 [2, 0, 97, 99, 107]) 2 0 [97, 99, 107] [5]
    rfl (by decide) rfl rfl rfl (by decide)
  ⟨h.1, h.2.2.1, h.2.2.2.1⟩

end Eepromrw
